import Mathlib

/-! # FbsLoader: container loading and model extraction

A shallow embedding of `esp-dl/fbs_loader/src/fbs_loader.cpp`.

* A source buffer is the sequence of bytes addressable from a base pointer,
  indexed by byte offset.  The code never learns the extent of a buffer, so
  the embedding gives it none either: every offset can be read.
* `uint32_t` values are natural numbers below `2^32`; arithmetic on them is
  reduced modulo `2^32` where the source computes in `uint32_t`.
* Pointers into the source buffer are byte offsets from its base; the null
  pointer is `none`.
* Everything a function does besides returning (log lines, heap allocation,
  decryption, mapping and unmapping) is recorded, in order, in a list of events.
-/

namespace fbs

/-! ## Bytes, words and buffers -/

/-- The bytes addressable from a base pointer, by byte offset. -/
abbrev Buffer := Nat → Nat

/-- The 128-bit key: the bytes found at the `key` pointer. -/
abbrev Key := List Nat

/-- A 16-byte cipher block. -/
abbrev Block := List Nat

/-- Dereference of a `const uint8_t *` at byte offset `off`. -/
def read_u8 (buf : Buffer) (off : Nat) : Nat := buf off % 256

/-- Dereference of a `const uint32_t *` at byte offset `off` (little-endian, the
byte order of the targets). -/
def read_u32 (buf : Buffer) (off : Nat) : Nat :=
  read_u8 buf off + 256 * read_u8 buf (off + 1) + 65536 * read_u8 buf (off + 2)
    + 16777216 * read_u8 buf (off + 3)

/-- The `n` bytes starting at byte offset `off`. -/
def read_bytes (buf : Buffer) (off n : Nat) : List Nat :=
  (List.range n).map (fun k => read_u8 buf (off + k))

/-- Conversion of an `int` argument to a `uint32_t` parameter. -/
def to_u32 (i : Int) : Nat := (i % 4294967296).toNat

/-- Conversion of a `uint32_t` value to an `int` result. -/
def to_int (n : Nat) : Int :=
  if n % 4294967296 < 2147483648 then (n % 4294967296 : Nat) else (n % 4294967296 : Nat) - 4294967296

/-- A buffer holding the given bytes at offsets `0, 1, ...` and zero after them. -/
def Buffer.ofList (l : List Nat) : Buffer := fun a => l.getD a 0

/-! ## Diagnostics and events -/

/-- The lines the loader writes to the log, one constructor per format string. -/
inductive Diag
  /-- Text `Model's flatbuffers is empty.` -/
  | buf_empty
  /-- Text `This is a cryptographic model, please enter the secret key!` -/
  | need_key
  /-- Text `The model file is corrupted or is an unsupported file type` -/
  | corrupted
  /-- Text `The model index is out of range.` -/
  | index_out_of_range
  /-- Text `Unsupported format, or the model file is corrupted!` -/
  | unsupported_format
  /-- Text `There are only one model in the flatbuffers, ignore the input model index!` -/
  | ignore_index
  /-- Text `The storage free size of this board is less than %s partition required size` -/
  | storage_too_small
  /-- Text `Can not find %s in partition table` -/
  | partition_not_found
  /-- Text `The storage free size is %ld KB` -/
  | storage_free_size (kb : Nat)
  /-- Text `The partition size is %ld KB` -/
  | partition_size (kb : Nat)
  /-- Text `model name: %s, index:%d`, with the bytes printed for `%s`. -/
  | model_name (name : List Nat) (index : Nat)
  /-- Text `There are only one model in the flatbuffers without model name.` -/
  | no_model_name
  deriving DecidableEq

/-- What a call does besides returning a value. -/
inductive Event
  /-- An `ESP_LOGE` line. -/
  | loge (d : Diag)
  /-- An `ESP_LOGW` line. -/
  | logw (d : Diag)
  /-- An `ESP_LOGI` line. -/
  | logi (d : Diag)
  /-- A call `heap_caps_malloc(size, ...)`. -/
  | heap_malloc (size : Nat)
  /-- A call of `fbs_aes_crypt_ctr` over `size` bytes. -/
  | aes_crypt_ctr (size : Nat)
  /-- A call `malloc(sizeof(esp_partition_mmap_handle_t))`. -/
  | handle_malloc
  /-- A call of `esp_partition_mmap`. -/
  | mmap
  /-- A call of `esp_partition_munmap` with the handle read through `m_mmap_handle`; the
  argument is that pointer. -/
  | munmap (through : Option Unit)
  /-- A call `free(m_mmap_handle)`. -/
  | handle_free
  /-- An access through a null pointer: the program faults here and nothing follows. -/
  | null_access
  /-- A signed `int` computation overflows: the behaviour from here on is undefined. -/
  | int_overflow
  deriving DecidableEq

/-- Modelled from the spec: the failure kinds of the error taxonomy that `load`
can report.  The code returns `nullptr` for each of them and tells them apart
only by the `ESP_LOGE` line written on the failing path. -/
inductive LoadError
  | NotBound
  | UnsupportedFormat
  | IndexOutOfRange
  | MissingKey
  deriving DecidableEq

/-- The failure kind an error line stands for. -/
def Diag.kind : Diag → Option LoadError
  | .buf_empty => some .NotBound
  | .need_key => some .MissingKey
  | .corrupted => some .UnsupportedFormat
  | .index_out_of_range => some .IndexOutOfRange
  | .unsupported_format => some .UnsupportedFormat
  | _ => none

/-- Modelled from the spec: `esp_err_t` of ESP-IDF, of which the loader uses
`ESP_OK` and `ESP_FAIL`. -/
inductive esp_err_t
  | ESP_OK
  | ESP_FAIL
  deriving DecidableEq

/-! ## Model handles -/

/-- Where the data pointer of a handle points. -/
inductive DataPtr
  /-- Into the source buffer, at this byte offset from its base. -/
  | source (off : Nat)
  /-- At a block obtained from `heap_caps_malloc`, with the block's contents. -/
  | heap (bytes : List Nat)
  deriving DecidableEq

/-- Modelled from the spec: the Model Handle (`FbsModel`, declared in
`fbs_model.hpp`), "a pointer-like view plus a flag indicating whether the
referenced memory is owned by the handle".  It is the pair of arguments of
`new FbsModel(data, auto_free)`. -/
structure FbsModel where
  data : DataPtr
  auto_free : Bool
  deriving DecidableEq

/-- The first `n` bytes a handle's data pointer refers to. -/
def FbsModel.bytes (src : Buffer) (m : FbsModel) (n : Nat) : List Nat :=
  match m.data with
  | .source off => read_bytes src off n
  | .heap bs => bs.take n

/-- The result of an extraction: the returned pointer (`none` for `nullptr`)
and the events of the call. -/
structure Outcome where
  ret : Option FbsModel
  trace : List Event
  deriving DecidableEq

/-- The failure kind of a call that returned `nullptr`: that of the last error
line it logged. -/
def Outcome.failure (o : Outcome) : Option LoadError :=
  match o.ret with
  | some _ => none
  | none =>
    (o.trace.filterMap (fun e => match e with
      | .loge d => d.kind
      | _ => none)).getLast?

/-- The sizes of the heap blocks a call allocated. -/
def allocations (t : List Event) : List Nat :=
  t.filterMap (fun e => match e with
    | .heap_malloc n => some n
    | _ => none)

/-- The number of decryptions a call performed. -/
def decryptions (t : List Event) : Nat :=
  t.countP (fun e => match e with
    | .aes_crypt_ctr _ => true
    | _ => false)

/-! ## Payload decryptor -/

/-- Exclusive or of two bytes, truncated to `unsigned char`. -/
def xor_u8 (c k : Nat) : Nat := ((c % 256) ^^^ (k % 256)) % 256

/-- Increment of a counter held least significant byte first: add one to the
first byte and carry into the next while the byte wraps to zero. -/
def inc_le : List Nat → List Nat
  | [] => []
  | b :: bs => if (b + 1) % 256 ≠ 0 then (b + 1) % 256 :: bs else 0 :: inc_le bs

/-- The counter update of Mbed TLS, `for (i = 16; i > 0; i--) if (++nonce_counter[i - 1] != 0) break;`:
the block is incremented as a big-endian number. -/
def ctr_increment (nonce_counter : Block) : Block :=
  (inc_le nonce_counter.reverse).reverse

/-- The body of `mbedtls_aes_crypt_ctr` (Mbed TLS, outside the repository), after
its documented behaviour.  For each input byte: when the offset `n` into the
stream block is zero, the stream block becomes the encryption of the counter
block and the counter is incremented; the output byte is the input byte xor the
`n`-th stream byte; `n` advances modulo 16.  `ecb` is the block encryption under
the key that was set. -/
def mbedtls_aes_crypt_ctr (ecb : Block → Block) :
    (nc_off : Nat) → (nonce_counter : Block) → (stream_block : Block) → (input : List Nat) → List Nat
  | _, _, _, [] => []
  | n, nonce_counter, stream_block, c :: input =>
    let stream_block1 := if n = 0 then ecb nonce_counter else stream_block
    let nonce_counter1 := if n = 0 then ctr_increment nonce_counter else nonce_counter
    xor_u8 c (stream_block1.getD n 0) ::
      mbedtls_aes_crypt_ctr ecb ((n + 1) % 16) nonce_counter1 stream_block1 input

/-- The initial counter block `nonce` of `fbs_aes_crypt_ctr`. -/
def nonce : Block :=
  [0x10, 0x11, 0x12, 0x13, 0x14, 0x15, 0x16, 0x17, 0x18, 0x19, 0x1A, 0x1B, 0x1C, 0x1D, 0x1E, 0x1F]

/-- The function `fbs_aes_crypt_ctr(ciphertext, plaintext, size, key)`: the value is
the `size` bytes written to `plaintext`; `ciphertext` is the list of the `size`
bytes read.  `aes key` is AES-128 block encryption under `key`
(`mbedtls_aes_setkey_enc` followed by the block encryptions of Mbed TLS), taken as
a parameter.  The stream block is uninitialised in the source and is filled
before its first use because `offset` starts at 0. -/
def fbs_aes_crypt_ctr (aes : Key → Block → Block) (ciphertext : List Nat) (key : Key) : List Nat :=
  mbedtls_aes_crypt_ctr (aes key) 0 nonce (List.replicate 16 0) ciphertext

/-- The counter block of the `i`-th 16-byte block in counter mode: the initial
counter block `0x10 .. 0x1F`, incremented `i` times as a big-endian number. -/
def counter_block (i : Nat) : Block := ctr_increment^[i] nonce

/-- Byte `j` of the AES-128-CTR key stream under `key`: byte `j mod 16` of the
encryption of the counter block of block `j / 16`. -/
def keystream_byte (aes : Key → Block → Block) (key : Key) (j : Nat) : Nat :=
  (aes key (counter_block (j / 16))).getD (j % 16) 0

/-- Counter mode from stream position `j` on: each byte is xored with the key stream
byte of its position. -/
def ctr_decrypt_from (aes : Key → Block → Block) (key : Key) : Nat → List Nat → List Nat
  | _, [] => []
  | j, c :: cs => xor_u8 c (keystream_byte aes key j) :: ctr_decrypt_from aes key (j + 1) cs

/-- The specification of the payload decryptor, AES-128-CTR decryption with the fixed
initial counter block: byte `j` of the result is byte `j` of the ciphertext xor
byte `j` of the key stream. -/
def aes128_ctr_decrypt (aes : Key → Block → Block) (key : Key) (ciphertext : List Nat) : List Nat :=
  ctr_decrypt_from aes key 0 ciphertext

/-! ## Format detector and container index -/

/-- The type `fbs_file_format_t`. -/
inductive fbs_file_format_t
  | FBS_FILE_FORMAT_UNK
  | FBS_FILE_FORMAT_EDL1
  | FBS_FILE_FORMAT_PDL1
  deriving DecidableEq

/-- The C library `strcmp` on byte strings: the strings are compared as
`unsigned char` up to and including the first NUL; the end of a list counts as
the terminating NUL. -/
def strcmp : List Nat → List Nat → Int
  | [], [] => 0
  | [], y :: _ => 0 - (y : Int)
  | x :: _, [] => (x : Int)
  | x :: xs, y :: ys =>
    if x ≠ y then (x : Int) - (y : Int) else if x = 0 then 0 else strcmp xs ys

/-- The string literal `"EDL1"` with its terminator. -/
def EDL1 : List Nat := [69, 68, 76, 49, 0]

/-- The string literal `"PDL1"` with its terminator. -/
def PDL1 : List Nat := [80, 68, 76, 49, 0]

/-- The function `get_model_format(format)`: four bytes are copied, a NUL is appended,
and the result is compared with the two tags. -/
def get_model_format (format : Buffer) : fbs_file_format_t :=
  let str := read_bytes format 0 4 ++ [0]
  if strcmp str EDL1 = 0 then .FBS_FILE_FORMAT_EDL1
  else if strcmp str PDL1 = 0 then .FBS_FILE_FORMAT_PDL1
  else .FBS_FILE_FORMAT_UNK

/-- The result of `get_model_offset_by_index`: the returned code, the value of the
reference parameter `offset` after the call, and the events. -/
structure OffsetResult where
  err : esp_err_t
  offset : Nat
  trace : List Event
  deriving DecidableEq

/-- The function `get_model_offset_by_index(fbs_buf, index, offset)`. `header[k]` is the
word at byte offset `4 * k`; the subscript `2 + index * 3` is computed in
`uint32_t`. -/
def get_model_offset_by_index (fbs_buf : Buffer) (index : Nat) (offset : Nat) : OffsetResult :=
  let model_num := read_u32 fbs_buf 4
  if index ≥ model_num then
    ⟨.ESP_FAIL, offset, [.loge .index_out_of_range]⟩
  else
    ⟨.ESP_OK, read_u32 fbs_buf (4 * ((2 + index * 3) % 4294967296)), []⟩

/-! ## Model extractor -/

/-- The function `create_fbs_model(model_buf, key)`. `src` is the source buffer and
`model_buf` the byte offset of the pointer from its base (`none` for
`nullptr`).  `heap_ok size` tells whether `heap_caps_malloc(size, ...)` returns a
block.  The source does not test the result: when it is `NULL`,
`fbs_aes_crypt_ctr` is called with the null `plaintext` pointer, the program
faults at the write, and no handle is returned.  Where `key` is dereferenced it
is not null, by the test before. -/
def create_fbs_model (aes : Key → Block → Block) (heap_ok : Nat → Bool)
    (src : Buffer) (model_buf : Option Nat)
    (key : Option Key) : Outcome :=
  match model_buf with
  | none => ⟨none, [.loge .buf_empty]⟩
  | some p =>
    let mode := read_u32 src (p + 4)
    let size := read_u32 src (p + 8)
    if mode ≠ 0 ∧ key = none then
      ⟨none, [.loge .need_key]⟩
    else
      let p := p + 12
      if mode = 0 then
        ⟨some ⟨.source p, false⟩, []⟩
      else if mode = 1 then
        if heap_ok size then
          let m_data := fbs_aes_crypt_ctr aes (read_bytes src p size) (key.getD [])
          ⟨some ⟨.heap m_data, true⟩, [.heap_malloc size, .aes_crypt_ctr size]⟩
        else
          ⟨none, [.heap_malloc size, .aes_crypt_ctr size, .null_access]⟩
      else
        ⟨none, [.loge .corrupted]⟩

/-! ## Loader -/

/-- Modelled from the spec: `model_location_type_t` (declared in `fbs_loader.hpp`),
the three storage backends: compiled-in buffer, mapped partition, external
media. -/
inductive model_location_type_t
  | MODEL_LOCATION_IN_FLASH_RODATA
  | MODEL_LOCATION_IN_FLASH_PARTITION
  | MODEL_LOCATION_IN_SDCARD
  deriving DecidableEq

/-- The fields of `esp_partition_t` the loader reads, with the region a mapping of
the partition yields (`none` when `esp_partition_mmap` does not return `ESP_OK`). -/
structure esp_partition_t where
  size : Nat
  mapped : Option Buffer

/-- The platform services the constructor calls. -/
structure Platform where
  /-- The call `esp_partition_find_first(ESP_PARTITION_TYPE_DATA, ESP_PARTITION_SUBTYPE_ANY, name)`,
  by the bytes `name` points to. -/
  esp_partition_find_first : Buffer → Option esp_partition_t
  /-- The call `spi_flash_mmap_get_free_pages(SPI_FLASH_MMAP_DATA)`. -/
  spi_flash_mmap_get_free_pages : Int

/-- The data members of `FbsLoader`.  `m_mmap_handle` is `none` for `nullptr` and
otherwise tells whether the handle record was filled in by a mapping;
`m_fbs_buf` is `none` for `nullptr`. -/
structure FbsLoader where
  m_mmap_handle : Option Unit
  m_location : model_location_type_t
  m_fbs_buf : Option Buffer

/-- The result of the constructor: the object (`none` when `ESP_ERROR_CHECK` aborted
the program) and the events. -/
structure Constructed where
  loader : Option FbsLoader
  trace : List Event

/-- The constructor `FbsLoader::FbsLoader(name, location)`. `name` is the pointer argument
(`none` for `nullptr`), given by the bytes it points to.  Both branches of the
`ESP_IDF_VERSION` conditional do the same. -/
def FbsLoader.new (plat : Platform) (name : Option Buffer) (location : model_location_type_t) :
    Constructed :=
  match name with
  | none => ⟨some ⟨none, location, none⟩, []⟩
  | some nm =>
    match location with
    | .MODEL_LOCATION_IN_FLASH_RODATA => ⟨some ⟨none, location, some nm⟩, []⟩
    | .MODEL_LOCATION_IN_FLASH_PARTITION =>
      match plat.esp_partition_find_first nm with
      | some partition =>
        let storage_size := to_u32 (plat.spi_flash_mmap_get_free_pages * 64 * 1024)
        let info : List Event :=
          [.logi (.storage_free_size (storage_size / 1024)), .logi (.partition_size (partition.size / 1024))]
        let warn : List Event :=
          if storage_size < partition.size then [.loge .storage_too_small] else []
        match partition.mapped with
        | some region =>
          ⟨some ⟨some (), location, some region⟩, info ++ warn ++ [.handle_malloc, .mmap]⟩
        | none => ⟨none, info ++ warn ++ [.handle_malloc, .mmap]⟩
      | none => ⟨some ⟨none, location, none⟩, [.loge .partition_not_found]⟩
    | .MODEL_LOCATION_IN_SDCARD => ⟨some ⟨none, location, none⟩, []⟩

/-- The method `FbsLoader::load(model_index, key)`.  The pointer `model_buf` is the base of
the source buffer, byte offset 0, so `model_buf + offset` is byte offset `0 + offset`. -/
def FbsLoader.load (aes : Key → Block → Block) (heap_ok : Nat → Bool)
    (self : FbsLoader) (model_index : Int)
    (key : Option Key) : Outcome :=
  match self.m_fbs_buf with
  | none => ⟨none, [.loge .buf_empty]⟩
  | some model_buf =>
    match get_model_format model_buf with
    | .FBS_FILE_FORMAT_PDL1 =>
      let r := get_model_offset_by_index model_buf (to_u32 model_index) 0
      if r.err ≠ .ESP_OK then ⟨none, r.trace⟩
      else
        let o := create_fbs_model aes heap_ok model_buf (some (0 + r.offset)) key
        ⟨o.ret, r.trace ++ o.trace⟩
    | .FBS_FILE_FORMAT_EDL1 =>
      let warn : List Event := if model_index > 0 then [.logw .ignore_index] else []
      let o := create_fbs_model aes heap_ok model_buf (some (0 + 0)) key
      ⟨o.ret, warn ++ o.trace⟩
    | .FBS_FILE_FORMAT_UNK => ⟨none, [.loge .unsupported_format]⟩

/-- The overload `FbsLoader::load(key)`. -/
def FbsLoader.load_key (aes : Key → Block → Block) (heap_ok : Nat → Bool)
    (self : FbsLoader) (key : Option Key) : Outcome :=
  self.load aes heap_ok 0 key

/-- The overload `FbsLoader::load(model_name, key)`. -/
def FbsLoader.load_name (aes : Key → Block → Block) (heap_ok : Nat → Bool)
    (self : FbsLoader) (_model_name : Option Buffer)
    (key : Option Key) : Outcome :=
  self.load aes heap_ok 0 key

/-- The method `FbsLoader::get_model_num()`; the `uint32_t` count is returned as `int`. -/
def FbsLoader.get_model_num (self : FbsLoader) : Int :=
  match self.m_fbs_buf with
  | none => 0
  | some model_buf =>
    match get_model_format model_buf with
    | .FBS_FILE_FORMAT_PDL1 =>
      let model_num := read_u32 model_buf 4
      to_int model_num
    | .FBS_FILE_FORMAT_EDL1 => 1
    | .FBS_FILE_FORMAT_UNK => 0

/-- The text `%s` prints for a `std::string` passed as `name.c_str()`: the bytes before
the first zero byte. -/
def c_str (name : List Nat) : List Nat := name.takeWhile (fun b => b ≠ 0)

/-- The number of iterations of the loop of `list_models` whose subscripts fit an
`int`: for `i = 715827882` the sum `2 + 3 * i` exceeds `INT_MAX`. -/
def int_safe_count : Nat := 715827882

/-- The method `FbsLoader::list_models()`, by the lines it logs.  Each name is the
`std::string` of `name_length` bytes at `name_offset`, printed through `c_str()`.
The loop variable is an `int` compared with the `uint32_t` count, and the
subscripts `2 + 3 * i + 1` and `2 + 3 * i + 2` are computed in `int`: the loop is run
over the indices whose subscripts fit, and a larger count ends in the signed
overflow. -/
def FbsLoader.list_models (self : FbsLoader) : List Event :=
  match self.m_fbs_buf with
  | none => [.loge .buf_empty]
  | some fbs_buf =>
    match get_model_format fbs_buf with
    | .FBS_FILE_FORMAT_PDL1 =>
      let model_num := read_u32 fbs_buf 4
      (List.range (min model_num int_safe_count)).map (fun i =>
        let name_offset := read_u32 fbs_buf (4 * (2 + 3 * i + 1))
        let name_length := read_u32 fbs_buf (4 * (2 + 3 * i + 2))
        .logi (.model_name (c_str (read_bytes fbs_buf name_offset name_length)) i))
      ++ (if model_num > int_safe_count then [.int_overflow] else [])
    | .FBS_FILE_FORMAT_EDL1 => [.logi .no_model_name]
    | .FBS_FILE_FORMAT_UNK => []

/-- The destructor `FbsLoader::~FbsLoader()`, by its events.  For a mapped-partition loader
the argument of `esp_partition_munmap` is read through `m_mmap_handle` before the
pointer is tested: when the pointer is null the program faults at that read and
the call is never made; otherwise the mapping is released and the record freed.
Both branches of the `ESP_IDF_VERSION` conditional do the same. -/
def FbsLoader.destroy (self : FbsLoader) : List Event :=
  match self.m_location with
  | .MODEL_LOCATION_IN_FLASH_PARTITION =>
    match self.m_mmap_handle with
    | none => [.null_access]
    | some h => [.munmap (some h), .handle_free]
  | .MODEL_LOCATION_IN_SDCARD => []
  | .MODEL_LOCATION_IN_FLASH_RODATA => []

/-- The acquire counter of the backend: the mappings a trace obtains. -/
def mappings_acquired (t : List Event) : Nat :=
  t.countP (fun e => match e with
    | .mmap => true
    | _ => false)

/-- The release counter of the backend: the unmap calls of a trace. -/
def mappings_released (t : List Event) : Nat :=
  t.countP (fun e => match e with
    | .munmap _ => true
    | _ => false)

/-- The names a run of `list_models` yields: those of its `model name` lines. -/
def listed_names (t : List Event) : List (List Nat) :=
  t.filterMap (fun e => match e with
    | .logi (.model_name name _) => some name
    | _ => none)

/-! ## Container layout and example buffers -/

/-- The payload offset stored in the `i`-th triple of a packed container: after the
tag and `model_num`, the triples `(data_offset, name_offset, name_length)` follow
(layout comment `FBS_FILE_FORMAT_PDL1` of the source). -/
def entry_payload_offset (buf : Buffer) (i : Nat) : Nat := read_u32 buf (8 + 12 * i)

/-- The cipher mode `create_fbs_model` reads for a payload at byte offset `p`: `header[1]`. -/
def payload_mode (buf : Buffer) (p : Nat) : Nat := read_u32 buf (p + 4)

/-- The payload size `create_fbs_model` reads for a payload at byte offset `p`: `header[2]`. -/
def payload_size (buf : Buffer) (p : Nat) : Nat := read_u32 buf (p + 8)

/-- A payload that can be extracted with the given key: cipher mode 0, or cipher
mode 1 with a key supplied. -/
def valid_payload (buf : Buffer) (p : Nat) (key : Option Key) : Bool :=
  decide (payload_mode buf p = 0 ∨ (payload_mode buf p = 1 ∧ key ≠ none))

/-- A payload whose decrypted copy can be allocated: cipher mode 0, which needs no
block, or a declared size for which `heap_caps_malloc` returns a block. -/
def allocatable (heap_ok : Nat → Bool) (buf : Buffer) (p : Nat) : Bool :=
  decide (payload_mode buf p = 0 ∨ heap_ok (payload_size buf p) = true)

/-- A loader bound to a compiled-in buffer. -/
def bound_to (buf : Buffer) : FbsLoader :=
  ⟨none, .MODEL_LOCATION_IN_FLASH_RODATA, some buf⟩

/-- A packed container whose count word is `0x55555556` and whose triples all
read `(8, 0, 0)`. -/
def wide_table : Buffer := fun a =>
  if a < 8 then [80, 68, 76, 49, 86, 85, 85, 85].getD a 0
  else if (a - 8) % 12 = 0 then 8 else 0

/-- A packed container with one entry: its payload is at byte offset 20, unencrypted,
three bytes long. -/
def one_entry : Buffer :=
  Buffer.ofList [80, 68, 76, 49, 1, 0, 0, 0, 20, 0, 0, 0, 0, 0, 0, 0, 0, 0, 0, 0,
    69, 68, 76, 49, 0, 0, 0, 0, 3, 0, 0, 0, 7, 8, 9]

/-- A single-model container, unencrypted, with a three-byte payload. -/
def single_plain : Buffer :=
  Buffer.ofList [69, 68, 76, 49, 0, 0, 0, 0, 3, 0, 0, 0, 7, 8, 9]

/-- A single-model container with cipher mode 1 and a two-byte payload. -/
def single_encrypted : Buffer :=
  Buffer.ofList [69, 68, 76, 49, 1, 0, 0, 0, 2, 0, 0, 0, 5, 6]

/-- A single-model container whose cipher mode word is 2. -/
def single_mode2 : Buffer :=
  Buffer.ofList [69, 68, 76, 49, 2, 0, 0, 0, 0, 0, 0, 0]

/-- A block function standing in for AES in evaluations: it adds the key to the
block, byte by byte. -/
def toy_cipher : Key → Block → Block := fun k b => List.zipWith (fun u v => (u + v) % 256) k b

/-- A packed container with one entry: its payload is at byte offset 20, has cipher
mode 1 and the declared size `0xFFFFFFFF`. -/
def huge_payload : Buffer :=
  Buffer.ofList [80, 68, 76, 49, 1, 0, 0, 0, 20, 0, 0, 0, 0, 0, 0, 0, 0, 0, 0, 0,
    69, 68, 76, 49, 1, 0, 0, 0, 255, 255, 255, 255]

/-- A packed container with two entries: an unencrypted one-byte payload at byte
offset 32 and a payload with cipher mode 1 and two bytes at byte offset 48. -/
def two_entries : Buffer :=
  Buffer.ofList [80, 68, 76, 49, 2, 0, 0, 0, 32, 0, 0, 0, 0, 0, 0, 0, 0, 0, 0, 0,
    48, 0, 0, 0, 0, 0, 0, 0, 0, 0, 0, 0,
    69, 68, 76, 49, 0, 0, 0, 0, 1, 0, 0, 0, 7, 0, 0, 0,
    69, 68, 76, 49, 1, 0, 0, 0, 2, 0, 0, 0, 5, 6]

/-- A single-model container with cipher mode 1 and the declared size `0xFFFFFFFF`. -/
def single_huge : Buffer :=
  Buffer.ofList [69, 68, 76, 49, 1, 0, 0, 0, 255, 255, 255, 255]

/-- A heap that serves requests of up to 64 KiB and no larger one. -/
def toy_heap : Nat → Bool := fun size => decide (size ≤ 65536)

/-- A packed container whose count word is `0xFFFFFFFF`; the bytes after it are zero. -/
def full_count : Buffer := Buffer.ofList [80, 68, 76, 49, 255, 255, 255, 255]

/-- A packed container whose count word is `0x80000000`. -/
def half_count : Buffer := Buffer.ofList [80, 68, 76, 49, 0, 0, 0, 128]

/-- A packed container whose count word is 2. -/
def two_count : Buffer := Buffer.ofList [80, 68, 76, 49, 2, 0, 0, 0]

/-- The partition label "model" as a C string. -/
def model_label : Buffer := Buffer.ofList [109, 111, 100, 101, 108, 0]

/-- A platform whose partition table is empty. -/
def no_partitions : Platform := ⟨fun _ => none, 0⟩

/-- The three bytes "EDL" followed by the byte "1". -/
def edl_then_one : Buffer := Buffer.ofList [69, 68, 76, 49]

/-- The three bytes "EDL" followed by a zero byte. -/
def edl_then_nul : Buffer := Buffer.ofList [69, 68, 76, 0]

/-- The first eight bytes of `one_entry`, followed by zero bytes. -/
def header_only : Buffer := Buffer.ofList [80, 68, 76, 49, 1, 0, 0, 0]

/-- A packed container whose count word is `0xFFFFFFFF`, with the word 8 at byte offset
`4 * 0xFFFFFFFC` and zero bytes elsewhere. -/
def far_entry : Buffer := fun a =>
  if a < 8 then [80, 68, 76, 49, 255, 255, 255, 255].getD a 0
  else if a = 17179869168 then 8 else 0

/-- A buffer whose first four bytes are "XDL1". -/
def unknown_tag : Buffer := Buffer.ofList [88, 68, 76, 49, 0, 0, 0, 0, 3, 0, 0, 0, 7, 8, 9]

/-- A platform whose partition table holds one partition that maps to `single_plain`. -/
def one_partition : Platform := ⟨fun _ => some ⟨4096, some single_plain⟩, 16⟩

/-! ## Basic facts -/

theorem read_u8_lt (buf : Buffer) (a : Nat) : read_u8 buf a < 256 := by
  unfold read_u8; omega

theorem read_u32_lt (buf : Buffer) (a : Nat) : read_u32 buf a < 4294967296 := by
  have h0 := read_u8_lt buf a
  have h1 := read_u8_lt buf (a + 1)
  have h2 := read_u8_lt buf (a + 2)
  have h3 := read_u8_lt buf (a + 3)
  unfold read_u32; omega

theorem read_bytes_four (buf : Buffer) :
    read_bytes buf 0 4 = [read_u8 buf 0, read_u8 buf 1, read_u8 buf 2, read_u8 buf 3] := by
  simp [read_bytes, List.range_succ]

theorem read_bytes_congr (b1 b2 : Buffer) (off n : Nat)
    (h : ∀ a, off ≤ a → a < off + n → b1 a = b2 a) :
    read_bytes b1 off n = read_bytes b2 off n := by
  unfold read_bytes
  apply List.map_congr_left
  intro k hk
  have := List.mem_range.mp hk
  unfold read_u8
  rw [h (off + k) (by omega) (by omega)]

theorem read_u32_congr (b1 b2 : Buffer) (off : Nat)
    (h : ∀ a, off ≤ a → a < off + 4 → b1 a = b2 a) : read_u32 b1 off = read_u32 b2 off := by
  unfold read_u32 read_u8
  rw [h off (by omega) (by omega), h (off + 1) (by omega) (by omega),
    h (off + 2) (by omega) (by omega), h (off + 3) (by omega) (by omega)]

theorem to_u32_natCast (n : Nat) (h : n < 4294967296) : to_u32 (n : Int) = n := by
  unfold to_u32
  omega

/-! ## Format detector -/

theorem strcmp_cons (x y : Nat) (xs ys : List Nat) :
    strcmp (x :: xs) (y :: ys) = 0 ↔ x = y ∧ (x = 0 ∨ strcmp xs ys = 0) := by
  rw [strcmp]
  split_ifs with h1 h2
  · constructor
    · intro h; omega
    · intro h; exact absurd h.1 h1
  · simp [h2]; omega
  · simp [h2]; omega

theorem strcmp_tag (b0 b1 b2 b3 t0 t1 t2 t3 : Nat) (h0 : t0 ≠ 0) (h1 : t1 ≠ 0) (h2 : t2 ≠ 0)
    (h3 : t3 ≠ 0) :
    strcmp [b0, b1, b2, b3, 0] [t0, t1, t2, t3, 0] = 0 ↔ (b0 = t0 ∧ b1 = t1 ∧ b2 = t2 ∧ b3 = t3) := by
  simp only [strcmp_cons]
  constructor
  · rintro ⟨e0, h⟩
    subst e0
    rcases h with h | ⟨e1, h⟩
    · exact absurd h h0
    subst e1
    rcases h with h | ⟨e2, h⟩
    · exact absurd h h1
    subst e2
    rcases h with h | ⟨e3, _⟩
    · exact absurd h h2
    exact ⟨rfl, rfl, rfl, e3⟩
  · rintro ⟨rfl, rfl, rfl, rfl⟩
    simp

theorem get_model_format_eq (buf : Buffer) :
    get_model_format buf =
      if read_bytes buf 0 4 = [69, 68, 76, 49] then .FBS_FILE_FORMAT_EDL1
      else if read_bytes buf 0 4 = [80, 68, 76, 49] then .FBS_FILE_FORMAT_PDL1
      else .FBS_FILE_FORMAT_UNK := by
  have hE := strcmp_tag (read_u8 buf 0) (read_u8 buf 1) (read_u8 buf 2) (read_u8 buf 3) 69 68 76 49
    (by decide) (by decide) (by decide) (by decide)
  have hP := strcmp_tag (read_u8 buf 0) (read_u8 buf 1) (read_u8 buf 2) (read_u8 buf 3) 80 68 76 49
    (by decide) (by decide) (by decide) (by decide)
  have eE : (read_bytes buf 0 4 = [69, 68, 76, 49]) ↔
      (read_u8 buf 0 = 69 ∧ read_u8 buf 1 = 68 ∧ read_u8 buf 2 = 76 ∧ read_u8 buf 3 = 49) := by
    rw [read_bytes_four]; simp
  have eP : (read_bytes buf 0 4 = [80, 68, 76, 49]) ↔
      (read_u8 buf 0 = 80 ∧ read_u8 buf 1 = 68 ∧ read_u8 buf 2 = 76 ∧ read_u8 buf 3 = 49) := by
    rw [read_bytes_four]; simp
  unfold get_model_format
  simp only [read_bytes_four, EDL1, PDL1, List.cons_append, List.nil_append, hE, hP]
  simp only [← eE, ← eP, read_bytes_four]

/-! ## Payload decryptor -/

theorem xor_u8_cancel (c k : Nat) : xor_u8 (xor_u8 c k) k = c % 256 := by
  have hc : c % 256 < 2 ^ 8 := by omega
  have hk : k % 256 < 2 ^ 8 := by omega
  have hx : (c % 256) ^^^ (k % 256) < 256 := Nat.xor_lt_two_pow hc hk
  unfold xor_u8
  rw [Nat.mod_eq_of_lt hx, Nat.mod_eq_of_lt hx, Nat.xor_cancel_right]
  omega

theorem mbedtls_aes_crypt_ctr_length (ecb : Block → Block) (input : List Nat) :
    ∀ (n : Nat) (nc sb : Block),
      (mbedtls_aes_crypt_ctr ecb n nc sb input).length = input.length := by
  induction input with
  | nil => intro n nc sb; simp [mbedtls_aes_crypt_ctr]
  | cons c cs ih => intro n nc sb; simp [mbedtls_aes_crypt_ctr, ih]

theorem mbedtls_aes_crypt_ctr_twice (ecb : Block → Block) (input : List Nat) :
    ∀ (n : Nat) (nc sb : Block),
      mbedtls_aes_crypt_ctr ecb n nc sb (mbedtls_aes_crypt_ctr ecb n nc sb input)
        = input.map (fun c => c % 256) := by
  induction input with
  | nil => intro n nc sb; simp [mbedtls_aes_crypt_ctr]
  | cons c cs ih =>
    intro n nc sb
    simp only [mbedtls_aes_crypt_ctr, List.map_cons, xor_u8_cancel, ih]

theorem map_mod_of_bytes (x : List Nat) (h : ∀ b ∈ x, b < 256) :
    x.map (fun c => c % 256) = x := by
  induction x with
  | nil => rfl
  | cons b bs ih =>
    have hb : b < 256 := h b (by simp)
    simp only [List.map_cons, Nat.mod_eq_of_lt hb]
    rw [ih (fun c hc => h c (by simp [hc]))]

theorem counter_block_succ (i : Nat) : counter_block (i + 1) = ctr_increment (counter_block i) := by
  unfold counter_block
  rw [Function.iterate_succ_apply']

theorem mbedtls_aes_crypt_ctr_refines (aes : Key → Block → Block) (key : Key) (input : List Nat) :
    ∀ (j : Nat) (nc sb : Block), nc = counter_block ((j + 15) / 16) →
      (j % 16 ≠ 0 → sb = aes key (counter_block (j / 16))) →
      mbedtls_aes_crypt_ctr (aes key) (j % 16) nc sb input = ctr_decrypt_from aes key j input := by
  induction input with
  | nil => intro j nc sb _ _; simp [mbedtls_aes_crypt_ctr, ctr_decrypt_from]
  | cons c cs ih =>
    intro j nc sb hnc hsb
    have hstep : (j % 16 + 1) % 16 = (j + 1) % 16 := by omega
    by_cases h0 : j % 16 = 0
    · have e1 : (j + 15) / 16 = j / 16 := by omega
      have e2 : (j + 1 + 15) / 16 = j / 16 + 1 := by omega
      have e3 : (j + 1) / 16 = j / 16 := by omega
      simp only [mbedtls_aes_crypt_ctr, ctr_decrypt_from, h0, if_true, keystream_byte]
      rw [hnc, e1]
      congr 1
      have := ih (j + 1) (ctr_increment (counter_block (j / 16))) (aes key (counter_block (j / 16)))
        (by rw [e2, counter_block_succ]) (by intro _; rw [e3])
      rw [← this]
      congr 1
      omega
    · have e2 : (j + 1 + 15) / 16 = (j + 15) / 16 := by omega
      simp only [mbedtls_aes_crypt_ctr, ctr_decrypt_from, h0, if_false, keystream_byte]
      rw [hsb h0]
      congr 1
      have := ih (j + 1) nc (aes key (counter_block (j / 16)))
        (by rw [e2]; exact hnc)
        (by intro h; have e3 : (j + 1) / 16 = j / 16 := by omega
            rw [e3])
      rw [← this, hstep]

theorem fbs_aes_crypt_ctr_refines (aes : Key → Block → Block) (key : Key) (c : List Nat) :
    fbs_aes_crypt_ctr aes c key = aes128_ctr_decrypt aes key c := by
  unfold fbs_aes_crypt_ctr aes128_ctr_decrypt
  exact mbedtls_aes_crypt_ctr_refines aes key c 0 nonce _ rfl (by intro h; exact absurd rfl h)

theorem ctr_decrypt_from_getD (aes : Key → Block → Block) (key : Key) (c : List Nat) :
    ∀ (j i : Nat), i < c.length →
      (ctr_decrypt_from aes key j c).getD i 0
        = xor_u8 (c.getD i 0) (keystream_byte aes key (j + i)) := by
  induction c with
  | nil => intro j i hi; simp at hi
  | cons x xs ih =>
    intro j i hi
    cases i with
    | zero => simp [ctr_decrypt_from]
    | succ i =>
      have hi2 : i < xs.length := by simpa using hi
      have e : j + (i + 1) = j + 1 + i := by omega
      simp only [ctr_decrypt_from, List.getD_cons_succ]
      rw [ih (j + 1) i hi2, e]

/-! ## Extractor and loader: unfolding lemmas -/

theorem create_fbs_model_plain (aes : Key → Block → Block) (heap_ok : Nat → Bool)
    (src : Buffer) (p : Nat)
    (key : Option Key) (h : read_u32 src (p + 4) = 0) :
    create_fbs_model aes heap_ok src (some p) key = ⟨some ⟨.source (p + 12), false⟩, []⟩ := by
  simp [create_fbs_model, h]

theorem create_fbs_model_valid (aes : Key → Block → Block) (heap_ok : Nat → Bool) (src : Buffer)
    (p : Nat) (key : Option Key) (h : valid_payload src p key = true)
    (ha : allocatable heap_ok src p = true) :
    (create_fbs_model aes heap_ok src (some p) key).ret.isSome = true := by
  simp only [valid_payload, payload_mode, decide_eq_true_eq] at h
  simp only [allocatable, payload_mode, payload_size, decide_eq_true_eq] at ha
  rcases h with h | ⟨h, hk⟩
  · simp [create_fbs_model, h]
  · rcases ha with ha | ha
    · rw [h] at ha; cases ha
    · simp [create_fbs_model, h, hk, ha]

theorem load_unbound (aes : Key → Block → Block) (heap_ok : Nat → Bool)
    (self : FbsLoader) (i : Int) (key : Option Key)
    (h : self.m_fbs_buf = none) : self.load aes heap_ok i key = ⟨none, [.loge .buf_empty]⟩ := by
  unfold FbsLoader.load
  rw [h]

theorem load_packed (aes : Key → Block → Block) (heap_ok : Nat → Bool)
    (self : FbsLoader) (buf : Buffer) (i : Int)
    (key : Option Key) (hbound : self.m_fbs_buf = some buf)
    (hfmt : get_model_format buf = .FBS_FILE_FORMAT_PDL1) :
    self.load aes heap_ok i key =
      if (get_model_offset_by_index buf (to_u32 i) 0).err ≠ .ESP_OK then
        ⟨none, (get_model_offset_by_index buf (to_u32 i) 0).trace⟩
      else
        ⟨(create_fbs_model aes heap_ok buf
            (some (get_model_offset_by_index buf (to_u32 i) 0).offset) key).ret,
          (get_model_offset_by_index buf (to_u32 i) 0).trace ++
          (create_fbs_model aes heap_ok buf
            (some (get_model_offset_by_index buf (to_u32 i) 0).offset) key).trace⟩ := by
  unfold FbsLoader.load
  rw [hbound]
  simp only [hfmt, Nat.zero_add]

theorem wide_table_at (a : Nat) (h : 8 ≤ a) :
    read_u8 wide_table a = if (a - 8) % 12 = 0 then 8 else 0 := by
  unfold read_u8 wide_table
  rw [if_neg (by omega)]
  split_ifs <;> rfl

theorem wide_table_entry (i : Nat) : entry_payload_offset wide_table i = 8 := by
  unfold entry_payload_offset read_u32
  rw [wide_table_at _ (by omega), wide_table_at _ (by omega), wide_table_at _ (by omega),
    wide_table_at _ (by omega)]
  rw [if_pos (by omega), if_neg (by omega), if_neg (by omega), if_neg (by omega)]

/-! ## Single-model containers without encryption -/

/-- C1. A loader bound to a buffer that starts with the tag "EDL1" and whose cipher mode
word (byte offset 4) is 0 answers `load(0, key)`, for every key and for no key, with
a handle that is not owned and whose data pointer is byte offset 12 of the source
buffer; the call logs nothing and allocates nothing, and the first `payload_size`
bytes of the handle are the payload bytes of the container. -/
theorem load_single_plain_borrows (aes : Key → Block → Block) (heap_ok : Nat → Bool)
    (self : FbsLoader) (buf : Buffer)
    (key : Option Key) (hbound : self.m_fbs_buf = some buf)
    (hmagic : read_bytes buf 0 4 = [69, 68, 76, 49]) (hmode : read_u32 buf 4 = 0) :
    self.load aes heap_ok 0 key = ⟨some ⟨.source 12, false⟩, []⟩ ∧
    (∀ m, (self.load aes heap_ok 0 key).ret = some m →
      m.auto_free = false ∧
      m.bytes buf (read_u32 buf 8) = read_bytes buf 12 (read_u32 buf 8)) ∧
    allocations (self.load aes heap_ok 0 key).trace = [] := by
  have hfmt : get_model_format buf = .FBS_FILE_FORMAT_EDL1 := by
    rw [get_model_format_eq, if_pos hmagic]
  have hload : self.load aes heap_ok 0 key = ⟨some ⟨.source 12, false⟩, []⟩ := by
    unfold FbsLoader.load
    rw [hbound]
    simp only [hfmt]
    rw [create_fbs_model_plain aes heap_ok buf (0 + 0) key (by simpa using hmode)]
    simp
  refine ⟨hload, ?_, ?_⟩
  · intro m hm
    rw [hload] at hm
    cases hm
    exact ⟨rfl, rfl⟩
  · rw [hload]; rfl

/-- C1, at a container with the payload 7, 8, 9 and no key. -/
theorem load_single_plain_borrows_witness :
    (bound_to single_plain).m_fbs_buf = some single_plain ∧
    read_bytes single_plain 0 4 = [69, 68, 76, 49] ∧
    read_u32 single_plain 4 = 0 ∧
    (bound_to single_plain).load toy_cipher toy_heap 0 none = ⟨some ⟨.source 12, false⟩, []⟩ :=
  ⟨rfl, by decide, by decide,
    (load_single_plain_borrows toy_cipher toy_heap (bound_to single_plain) single_plain none rfl
      (by decide) (by decide)).1⟩

/-! ## Packed containers: index range -/

/-- C2, counterexample. First, a packed container with one entry whose payload has cipher
mode 1 and declared size `0xFFFFFFFF`: with a key supplied the entry is valid in the
sense of the claim, yet the heap returns no block of that size and `load(0, key)`
returns no handle.  Second, a count of 1431655766 with every triple storing payload
offset 8, where the cipher mode read is 0: `load(1431655765)` returns no handle,
because the subscript `2 + index * 3` wraps to 1 in `uint32_t`. -/
theorem load_packed_entry_not_loaded :
    (read_bytes huge_payload 0 4 = [80, 68, 76, 49] ∧
      read_u32 huge_payload 4 = 1 ∧
      (∀ i, i < 1 → valid_payload huge_payload (entry_payload_offset huge_payload i)
        (some (List.range 16)) = true) ∧
      payload_size huge_payload (entry_payload_offset huge_payload 0) = 4294967295 ∧
      toy_heap 4294967295 = false ∧
      ((bound_to huge_payload).load toy_cipher toy_heap 0 (some (List.range 16))).ret = none) ∧
    (read_bytes wide_table 0 4 = [80, 68, 76, 49] ∧
      read_u32 wide_table 4 = 1431655766 ∧
      (∀ i, i < 1431655766 →
        valid_payload wide_table (entry_payload_offset wide_table i) none = true) ∧
      ((bound_to wide_table).load toy_cipher toy_heap 1431655765 none).ret = none) := by
  refine ⟨by decide, by decide, by decide, ?_, ?_⟩
  · intro i _
    rw [wide_table_entry]
    decide
  · decide

/-- C2, amended. For a loader bound to a packed container (tag "PDL1") with
`model_count = N`, where `N` is at most 1431655765 and the payload offset stored in
each of the `N` triples points to a payload with cipher mode 0, or with cipher mode 1
while a key is supplied and `heap_caps_malloc` returns a block of the declared
size: `load(i, key)` returns a handle for every `0 <= i < N`, the one extracted at
the payload offset of the `i`-th triple, and `load(N, key)` returns no handle and
reports the index out of range. -/
theorem load_packed_index_range (aes : Key → Block → Block) (heap_ok : Nat → Bool)
    (self : FbsLoader) (buf : Buffer)
    (N : Nat) (key : Option Key) (hbound : self.m_fbs_buf = some buf)
    (hmagic : read_bytes buf 0 4 = [80, 68, 76, 49]) (hcount : read_u32 buf 4 = N)
    (hvalid : ∀ i, i < N → valid_payload buf (entry_payload_offset buf i) key = true)
    (halloc : ∀ i, i < N → allocatable heap_ok buf (entry_payload_offset buf i) = true)
    (hfit : N ≤ 1431655765) :
    (∀ i : Nat, i < N →
      (self.load aes heap_ok (i : Int) key).ret.isSome = true ∧
      (self.load aes heap_ok (i : Int) key).ret
        = (create_fbs_model aes heap_ok buf (some (entry_payload_offset buf i)) key).ret) ∧
    (self.load aes heap_ok (N : Int) key).ret = none ∧
    (self.load aes heap_ok (N : Int) key).failure = some .IndexOutOfRange := by
  have hfmt : get_model_format buf = .FBS_FILE_FORMAT_PDL1 := by
    rw [get_model_format_eq, if_neg (by rw [hmagic]; decide), if_pos hmagic]
  refine ⟨?_, ?_⟩
  · intro i hi
    have hu : to_u32 (i : Int) = i := to_u32_natCast i (by omega)
    have hoff : get_model_offset_by_index buf i 0 = ⟨.ESP_OK, entry_payload_offset buf i, []⟩ := by
      unfold get_model_offset_by_index entry_payload_offset
      have : ¬ i ≥ read_u32 buf 4 := by omega
      simp only [this, if_false]
      rw [Nat.mod_eq_of_lt (by omega)]
      congr 2
      omega
    rw [load_packed aes heap_ok self buf i key hbound hfmt, hu, hoff]
    simp only [ne_eq, not_true_eq_false, if_false]
    exact ⟨create_fbs_model_valid aes heap_ok buf _ key (hvalid i hi) (halloc i hi), trivial⟩
  · have hu : to_u32 (N : Int) = N := to_u32_natCast N (by omega)
    have hoff : get_model_offset_by_index buf N 0 = ⟨.ESP_FAIL, 0, [.loge .index_out_of_range]⟩ := by
      unfold get_model_offset_by_index
      simp [hcount]
    rw [load_packed aes heap_ok self buf N key hbound hfmt, hu, hoff]
    exact ⟨rfl, rfl⟩

/-- C2 amended, at a container with an unencrypted and an encrypted entry and a key:
indices 0 and 1 are loaded, index 2 is out of range. -/
theorem load_packed_index_range_witness :
    read_bytes two_entries 0 4 = [80, 68, 76, 49] ∧
    read_u32 two_entries 4 = 2 ∧
    (∀ i, i < 2 → valid_payload two_entries (entry_payload_offset two_entries i)
      (some (List.range 16)) = true) ∧
    (∀ i, i < 2 → allocatable toy_heap two_entries (entry_payload_offset two_entries i) = true) ∧
    payload_mode two_entries (entry_payload_offset two_entries 1) = 1 ∧
    ((∀ i : Nat, i < 2 →
      ((bound_to two_entries).load toy_cipher toy_heap (i : Int) (some (List.range 16))).ret.isSome
        = true ∧
      ((bound_to two_entries).load toy_cipher toy_heap (i : Int) (some (List.range 16))).ret
        = (create_fbs_model toy_cipher toy_heap two_entries
            (some (entry_payload_offset two_entries i)) (some (List.range 16))).ret) ∧
    ((bound_to two_entries).load toy_cipher toy_heap ((2 : Nat) : Int)
      (some (List.range 16))).ret = none ∧
    ((bound_to two_entries).load toy_cipher toy_heap ((2 : Nat) : Int)
      (some (List.range 16))).failure = some .IndexOutOfRange) :=
  ⟨by decide, by decide, by decide, by decide, by decide,
    load_packed_index_range toy_cipher toy_heap (bound_to two_entries) two_entries 2
      (some (List.range 16)) rfl (by decide) (by decide) (by decide) (by decide) (by decide)⟩

/-! ## Container index -/

/-- C3, counterexample. With the count word `0xFFFFFFFF` and index 1431655765, which is
below the count, the call succeeds and returns 4294967295, the word at byte offset 4
(the count itself), while the word at byte offset `8 + 12 * index` is 0: the
subscript `2 + index * 3` is 4294967297 and wraps to 1 in `uint32_t`. -/
theorem get_model_offset_by_index_subscript_wraps :
    1431655765 < read_u32 full_count 4 ∧
    (get_model_offset_by_index full_count 1431655765 0).err = .ESP_OK ∧
    (get_model_offset_by_index full_count 1431655765 0).offset = 4294967295 ∧
    read_u32 full_count (8 + 12 * 1431655765) = 0 := by
  decide

/-- C3, amended. For every buffer and every index, `get_model_offset_by_index` fails if and
only if the index is at least the entry count (the second header word), and then
logs the out-of-range line and leaves `offset` as it was; when the index is below
the entry count it succeeds and returns the word at byte offset
`4 * ((2 + 3 * index) mod 2^32)`, which is the payload offset of the `index`-th
triple, the word at byte offset `8 + 12 * index`, whenever `3 * index + 2 < 2^32`. -/
theorem get_model_offset_by_index_spec (fbs_buf : Buffer) (index offset : Nat) :
    ((get_model_offset_by_index fbs_buf index offset).err = .ESP_FAIL ↔
      read_u32 fbs_buf 4 ≤ index) ∧
    (read_u32 fbs_buf 4 ≤ index →
      get_model_offset_by_index fbs_buf index offset
        = ⟨.ESP_FAIL, offset, [.loge .index_out_of_range]⟩) ∧
    (index < read_u32 fbs_buf 4 →
      (get_model_offset_by_index fbs_buf index offset).err = .ESP_OK ∧
      (get_model_offset_by_index fbs_buf index offset).offset
        = read_u32 fbs_buf (4 * ((2 + index * 3) % 4294967296))) ∧
    (index < read_u32 fbs_buf 4 → 3 * index + 2 < 4294967296 →
      (get_model_offset_by_index fbs_buf index offset).offset
        = entry_payload_offset fbs_buf index) := by
  unfold get_model_offset_by_index entry_payload_offset
  refine ⟨?_, ?_, ?_, ?_⟩
  · by_cases h : index ≥ read_u32 fbs_buf 4
    · simp [h]
    · simp [h]
  · intro h
    simp [h]
  · intro h
    have : ¬ index ≥ read_u32 fbs_buf 4 := by omega
    simp [this]
  · intro h hfit
    have : ¬ index ≥ read_u32 fbs_buf 4 := by omega
    simp only [this, if_false]
    rw [Nat.mod_eq_of_lt (by omega)]
    congr 1
    omega

/-- C3 amended, at a container with one entry: index 0 yields the stored payload offset
20, index 1 fails. -/
theorem get_model_offset_by_index_spec_witness :
    (0 < read_u32 one_entry 4 ∧ 3 * 0 + 2 < 4294967296 ∧ read_u32 one_entry 4 ≤ 1) ∧
    (get_model_offset_by_index one_entry 0 0).offset = entry_payload_offset one_entry 0 ∧
    entry_payload_offset one_entry 0 = 20 ∧
    get_model_offset_by_index one_entry 1 0 = ⟨.ESP_FAIL, 0, [.loge .index_out_of_range]⟩ :=
  ⟨by decide,
    (get_model_offset_by_index_spec one_entry 0 0).2.2.2 (by decide) (by decide),
    by decide,
    (get_model_offset_by_index_spec one_entry 1 0).2.1 (by decide)⟩

/-! ## Model count -/

/-- C4, counterexample. For a packed container whose count word is 2147483648,
`get_model_num()` returns -2147483648: the count is returned through `int`. -/
theorem get_model_num_large_count :
    get_model_format half_count = .FBS_FILE_FORMAT_PDL1 ∧
    read_u32 half_count 4 = 2147483648 ∧
    (bound_to half_count).get_model_num = -2147483648 := by
  decide

/-- C4, amended. `get_model_num()` returns 0 when the loader is unbound or the tag of the
bound buffer is unknown, 1 for a single-model container, and for a packed container
the count word `N` converted to `int`: `N` itself when `N < 2^31`, and `N - 2^32`
otherwise. -/
theorem get_model_num_value (self : FbsLoader) :
    (self.m_fbs_buf = none → self.get_model_num = 0) ∧
    (∀ buf, self.m_fbs_buf = some buf →
      (get_model_format buf = .FBS_FILE_FORMAT_UNK → self.get_model_num = 0) ∧
      (get_model_format buf = .FBS_FILE_FORMAT_EDL1 → self.get_model_num = 1) ∧
      (get_model_format buf = .FBS_FILE_FORMAT_PDL1 →
        (read_u32 buf 4 < 2147483648 → self.get_model_num = (read_u32 buf 4 : Int)) ∧
        (2147483648 ≤ read_u32 buf 4 →
          self.get_model_num = (read_u32 buf 4 : Int) - 4294967296))) := by
  refine ⟨?_, ?_⟩
  · intro h; simp [FbsLoader.get_model_num, h]
  · intro buf h
    have hlt := read_u32_lt buf 4
    refine ⟨?_, ?_, ?_⟩
    · intro hf; simp [FbsLoader.get_model_num, h, hf]
    · intro hf; simp [FbsLoader.get_model_num, h, hf]
    · intro hf
      have e : self.get_model_num = to_int (read_u32 buf 4) := by
        simp [FbsLoader.get_model_num, h, hf]
      rw [e]
      unfold to_int
      rw [Nat.mod_eq_of_lt hlt]
      constructor
      · intro hs; rw [if_pos hs]
      · intro hs; rw [if_neg (by omega)]

/-- C4 amended, at a packed container with count word 2. -/
theorem get_model_num_value_witness :
    (bound_to two_count).m_fbs_buf = some two_count ∧
    get_model_format two_count = .FBS_FILE_FORMAT_PDL1 ∧
    read_u32 two_count 4 < 2147483648 ∧
    (bound_to two_count).get_model_num = (read_u32 two_count 4 : Int) ∧
    read_u32 two_count 4 = 2 :=
  ⟨rfl, by decide, by decide,
    (((get_model_num_value (bound_to two_count)).2 two_count rfl).2.2 (by decide)).1 (by decide),
    by decide⟩

/-! ## Format detection -/

/-- C5. `get_model_format` returns `FBS_FILE_FORMAT_EDL1` exactly when the first four bytes are
"EDL1", `FBS_FILE_FORMAT_PDL1` exactly when they are "PDL1", and `FBS_FILE_FORMAT_UNK`
exactly when they are neither, in particular whenever one of them is zero; two
buffers that agree on their first four bytes get the same result. -/
theorem get_model_format_reads_tag (buf : Buffer) :
    (get_model_format buf = .FBS_FILE_FORMAT_EDL1 ↔ read_bytes buf 0 4 = [69, 68, 76, 49]) ∧
    (get_model_format buf = .FBS_FILE_FORMAT_PDL1 ↔ read_bytes buf 0 4 = [80, 68, 76, 49]) ∧
    (get_model_format buf = .FBS_FILE_FORMAT_UNK ↔
      (read_bytes buf 0 4 ≠ [69, 68, 76, 49] ∧ read_bytes buf 0 4 ≠ [80, 68, 76, 49])) ∧
    ((∃ a, a < 4 ∧ read_u8 buf a = 0) → get_model_format buf = .FBS_FILE_FORMAT_UNK) ∧
    (∀ other : Buffer, (∀ a, a < 4 → other a = buf a) →
      get_model_format other = get_model_format buf) := by
  refine ⟨?_, ?_, ?_, ?_, ?_⟩
  · rw [get_model_format_eq]; split_ifs with h1 h2 <;> simp_all
  · rw [get_model_format_eq]; split_ifs with h1 h2 <;> simp_all
  · rw [get_model_format_eq]; split_ifs with h1 h2 <;> simp_all
  · rintro ⟨a, ha, hz⟩
    rw [get_model_format_eq, read_bytes_four]
    have : a = 0 ∨ a = 1 ∨ a = 2 ∨ a = 3 := by omega
    rcases this with rfl | rfl | rfl | rfl <;> simp [hz]
  · intro other h
    rw [get_model_format_eq, get_model_format_eq,
      read_bytes_congr other buf 0 4 (fun a _ ha => h a (by omega))]

/-- C5, at a single-model container and at a buffer whose second byte is zero. -/
theorem get_model_format_reads_tag_witness :
    get_model_format single_plain = .FBS_FILE_FORMAT_EDL1 ∧
    get_model_format (Buffer.ofList [80, 0, 76, 49]) = .FBS_FILE_FORMAT_UNK :=
  ⟨(get_model_format_reads_tag single_plain).1.mpr (by decide),
    (get_model_format_reads_tag (Buffer.ofList [80, 0, 76, 49])).2.2.2.1 ⟨1, by decide, by decide⟩⟩

/-! ## Extraction: keys and cipher modes -/

/-- C6. For every payload whose cipher mode word is 1, `create_fbs_model` with a null key
returns no handle, logs the line that asks for the secret key (the missing-key
failure) and nothing else, allocates nothing and decrypts nothing. -/
theorem create_fbs_model_missing_key (aes : Key → Block → Block) (heap_ok : Nat → Bool)
    (src : Buffer) (p : Nat)
    (hmode : read_u32 src (p + 4) = 1) :
    (create_fbs_model aes heap_ok src (some p) none).ret = none ∧
    (create_fbs_model aes heap_ok src (some p) none).failure = some .MissingKey ∧
    (create_fbs_model aes heap_ok src (some p) none).trace = [.loge .need_key] ∧
    allocations (create_fbs_model aes heap_ok src (some p) none).trace = [] ∧
    decryptions (create_fbs_model aes heap_ok src (some p) none).trace = 0 := by
  have h : create_fbs_model aes heap_ok src (some p) none = ⟨none, [.loge .need_key]⟩ := by
    simp [create_fbs_model, hmode]
  rw [h]
  exact ⟨rfl, rfl, rfl, rfl, rfl⟩

/-- C6, at an encrypted single-model container. -/
theorem create_fbs_model_missing_key_witness :
    read_u32 single_encrypted (0 + 4) = 1 ∧
    (create_fbs_model toy_cipher toy_heap single_encrypted (some 0) none).ret = none ∧
    (create_fbs_model toy_cipher toy_heap single_encrypted (some 0) none).failure = some .MissingKey :=
  ⟨by decide,
    (create_fbs_model_missing_key toy_cipher toy_heap single_encrypted 0 (by decide)).1,
    (create_fbs_model_missing_key toy_cipher toy_heap single_encrypted 0 (by decide)).2.1⟩

/-- C7, counterexample. For a payload whose cipher mode word is 2 and a null key, the
failure reported is the missing key, not the unsupported format: the test
`mode != 0 && key == NULL` comes before the cipher mode is told apart. -/
theorem create_fbs_model_mode2_no_key :
    read_u32 single_mode2 (0 + 4) = 2 ∧
    (create_fbs_model toy_cipher toy_heap single_mode2 (some 0) none).trace = [.loge .need_key] ∧
    (create_fbs_model toy_cipher toy_heap single_mode2 (some 0) none).failure = some .MissingKey ∧
    (create_fbs_model toy_cipher toy_heap single_mode2 (some 0) none).failure
      ≠ some .UnsupportedFormat := by
  decide

/-- C7, amended. For every payload whose cipher mode word is neither 0 nor 1,
`create_fbs_model` returns no handle, allocates nothing and decrypts nothing; when a
key is supplied the failure is the unsupported format (the corrupted-file line),
and when no key is supplied it is the missing key. -/
theorem create_fbs_model_unknown_mode (aes : Key → Block → Block) (heap_ok : Nat → Bool)
    (src : Buffer) (p : Nat)
    (key : Option Key) (h0 : read_u32 src (p + 4) ≠ 0) (h1 : read_u32 src (p + 4) ≠ 1) :
    (create_fbs_model aes heap_ok src (some p) key).ret = none ∧
    allocations (create_fbs_model aes heap_ok src (some p) key).trace = [] ∧
    decryptions (create_fbs_model aes heap_ok src (some p) key).trace = 0 ∧
    (key ≠ none →
      (create_fbs_model aes heap_ok src (some p) key).failure = some .UnsupportedFormat ∧
      (create_fbs_model aes heap_ok src (some p) key).trace = [.loge .corrupted]) ∧
    (key = none →
      (create_fbs_model aes heap_ok src (some p) key).failure = some .MissingKey ∧
      (create_fbs_model aes heap_ok src (some p) key).trace = [.loge .need_key]) := by
  cases key with
  | none =>
    have h : create_fbs_model aes heap_ok src (some p) none = ⟨none, [.loge .need_key]⟩ := by
      simp [create_fbs_model, h0]
    rw [h]
    exact ⟨rfl, rfl, rfl, fun hk => absurd rfl hk, fun _ => ⟨rfl, rfl⟩⟩
  | some k =>
    have h : create_fbs_model aes heap_ok src (some p) (some k) = ⟨none, [.loge .corrupted]⟩ := by
      simp [create_fbs_model, h0, h1]
    rw [h]
    exact ⟨rfl, rfl, rfl, fun _ => ⟨rfl, rfl⟩, fun hk => by cases hk⟩

/-- C7 amended, at cipher mode 2 with a key supplied. -/
theorem create_fbs_model_unknown_mode_witness :
    read_u32 single_mode2 (0 + 4) ≠ 0 ∧ read_u32 single_mode2 (0 + 4) ≠ 1 ∧
    (create_fbs_model toy_cipher toy_heap single_mode2 (some 0) (some (List.range 16))).ret = none ∧
    (create_fbs_model toy_cipher toy_heap single_mode2 (some 0) (some (List.range 16))).failure
      = some .UnsupportedFormat :=
  ⟨by decide, by decide,
    (create_fbs_model_unknown_mode toy_cipher toy_heap single_mode2 0 (some (List.range 16)) (by decide)
      (by decide)).1,
    ((create_fbs_model_unknown_mode toy_cipher toy_heap single_mode2 0 (some (List.range 16)) (by decide)
      (by decide)).2.2.2.1 (by simp)).1⟩

/-- C8, counterexample. For a payload with cipher mode 1 and declared size `0xFFFFFFFF`, and a
key supplied, the heap returns no block: `create_fbs_model` calls
`fbs_aes_crypt_ctr` with the null block, the program faults, and no handle is
returned. -/
theorem create_fbs_model_allocation_fails :
    read_u32 single_huge (0 + 4) = 1 ∧
    read_u32 single_huge (0 + 8) = 4294967295 ∧
    toy_heap 4294967295 = false ∧
    create_fbs_model toy_cipher toy_heap single_huge (some 0) (some (List.range 16))
      = ⟨none, [.heap_malloc 4294967295, .aes_crypt_ctr 4294967295, .null_access]⟩ := by
  decide

/-- C8, amended. For every payload with cipher mode 1, declared size `S` (the word after the
mode) and a supplied key, when `heap_caps_malloc(S)` returns a block:
`create_fbs_model` returns an owned handle over that block, obtained by one
allocation, holding exactly `S` bytes, the AES-128-CTR decryption under that key
of the `S` bytes that follow the sub-header, which is what `fbs_aes_crypt_ctr`
computes: byte `j` is byte `j` of the payload xor byte `j` of the key stream.  The
source buffer is only read: the decryption writes to the new block. -/
theorem create_fbs_model_decrypts (aes : Key → Block → Block) (heap_ok : Nat → Bool)
    (src : Buffer) (p : Nat) (k : Key)
    (hmode : read_u32 src (p + 4) = 1) (halloc : heap_ok (read_u32 src (p + 8)) = true) :
    create_fbs_model aes heap_ok src (some p) (some k) =
      ⟨some ⟨.heap (aes128_ctr_decrypt aes k (read_bytes src (p + 12) (read_u32 src (p + 8)))), true⟩,
        [.heap_malloc (read_u32 src (p + 8)), .aes_crypt_ctr (read_u32 src (p + 8))]⟩ ∧
    aes128_ctr_decrypt aes k (read_bytes src (p + 12) (read_u32 src (p + 8)))
      = fbs_aes_crypt_ctr aes (read_bytes src (p + 12) (read_u32 src (p + 8))) k ∧
    (aes128_ctr_decrypt aes k (read_bytes src (p + 12) (read_u32 src (p + 8)))).length
      = read_u32 src (p + 8) ∧
    (∀ j, j < read_u32 src (p + 8) →
      (aes128_ctr_decrypt aes k (read_bytes src (p + 12) (read_u32 src (p + 8)))).getD j 0
        = xor_u8 (read_u8 src (p + 12 + j)) (keystream_byte aes k j)) ∧
    allocations (create_fbs_model aes heap_ok src (some p) (some k)).trace
      = [read_u32 src (p + 8)] := by
  have hr := fbs_aes_crypt_ctr_refines aes k (read_bytes src (p + 12) (read_u32 src (p + 8)))
  have h : create_fbs_model aes heap_ok src (some p) (some k) =
      ⟨some ⟨.heap (aes128_ctr_decrypt aes k (read_bytes src (p + 12) (read_u32 src (p + 8)))), true⟩,
        [.heap_malloc (read_u32 src (p + 8)), .aes_crypt_ctr (read_u32 src (p + 8))]⟩ := by
    rw [← hr]
    simp [create_fbs_model, hmode, halloc]
  have hlen : (read_bytes src (p + 12) (read_u32 src (p + 8))).length = read_u32 src (p + 8) := by
    simp [read_bytes]
  refine ⟨h, hr.symm, ?_, ?_, ?_⟩
  · rw [← hr]
    simp [fbs_aes_crypt_ctr, mbedtls_aes_crypt_ctr_length, read_bytes]
  · intro j hj
    unfold aes128_ctr_decrypt
    rw [ctr_decrypt_from_getD aes k _ 0 j (by rw [hlen]; exact hj), Nat.zero_add]
    congr 1
    simp [read_bytes, List.getD_eq_getElem?_getD, hj]
  · rw [h]; rfl

/-- C8 amended, at an encrypted single-model container with a two-byte payload. -/
theorem create_fbs_model_decrypts_witness :
    read_u32 single_encrypted (0 + 4) = 1 ∧
    read_u32 single_encrypted (0 + 8) = 2 ∧
    toy_heap (read_u32 single_encrypted (0 + 8)) = true ∧
    create_fbs_model toy_cipher toy_heap single_encrypted (some 0) (some (List.range 16)) =
      ⟨some ⟨.heap (aes128_ctr_decrypt toy_cipher (List.range 16)
          (read_bytes single_encrypted (0 + 12) (read_u32 single_encrypted (0 + 8)))), true⟩,
        [.heap_malloc (read_u32 single_encrypted (0 + 8)),
          .aes_crypt_ctr (read_u32 single_encrypted (0 + 8))]⟩ :=
  ⟨by decide, by decide, by decide,
    (create_fbs_model_decrypts toy_cipher toy_heap single_encrypted 0 (List.range 16) (by decide)
      (by decide)).1⟩

/-! ## Counter mode round trip -/

/-- C9. For every block function `aes heap_ok`, every key and every byte string `x`, applying
`fbs_aes_crypt_ctr` twice under the same key gives `x` back, and one application
keeps the length: with the fixed counter block, decryption undoes encryption. -/
theorem fbs_aes_crypt_ctr_round_trip (aes : Key → Block → Block) (key : Key) (x : List Nat)
    (hx : ∀ b ∈ x, b < 256) :
    (fbs_aes_crypt_ctr aes x key).length = x.length ∧
    fbs_aes_crypt_ctr aes (fbs_aes_crypt_ctr aes x key) key = x := by
  unfold fbs_aes_crypt_ctr
  rw [mbedtls_aes_crypt_ctr_twice, map_mod_of_bytes x hx, mbedtls_aes_crypt_ctr_length]
  exact ⟨rfl, rfl⟩

/-- C9, at a four-byte string. -/
theorem fbs_aes_crypt_ctr_round_trip_witness :
    (∀ b ∈ [72, 105, 255, 0], b < 256) ∧
    fbs_aes_crypt_ctr toy_cipher (fbs_aes_crypt_ctr toy_cipher [72, 105, 255, 0] (List.range 16))
      (List.range 16) = [72, 105, 255, 0] :=
  ⟨by decide,
    (fbs_aes_crypt_ctr_round_trip toy_cipher (List.range 16) [72, 105, 255, 0] (by decide)).2⟩

/-! ## Unbound loaders -/

/-- C10. A loader constructed with a null name, or for a mapped partition whose name is not
in the partition table, is unbound (`m_fbs_buf` is null): `get_model_num()` is 0,
`list_models()` yields no name, and `load` returns no handle and reports the empty
buffer (not bound) for every index, every model name and every key. -/
theorem unbound_loader_inert (aes : Key → Block → Block) (heap_ok : Nat → Bool)
    (plat : Platform) (name : Option Buffer)
    (location : model_location_type_t)
    (h : name = none ∨
      (location = .MODEL_LOCATION_IN_FLASH_PARTITION ∧
        ∃ nm, name = some nm ∧ plat.esp_partition_find_first nm = none)) :
    ∃ self : FbsLoader,
      (FbsLoader.new plat name location).loader = some self ∧
      self.m_fbs_buf = none ∧
      self.get_model_num = 0 ∧
      listed_names self.list_models = [] ∧
      ∀ (model_index : Int) (model_name : Option Buffer) (key : Option Key),
        (self.load aes heap_ok model_index key).ret = none ∧
        (self.load aes heap_ok model_index key).failure = some .NotBound ∧
        (self.load_key aes heap_ok key).ret = none ∧
        (self.load_key aes heap_ok key).failure = some .NotBound ∧
        (self.load_name aes heap_ok model_name key).ret = none ∧
        (self.load_name aes heap_ok model_name key).failure = some .NotBound := by
  have key_fact : ∀ self : FbsLoader, self.m_fbs_buf = none →
      self.get_model_num = 0 ∧
      listed_names self.list_models = [] ∧
      ∀ (model_index : Int) (model_name : Option Buffer) (key : Option Key),
        (self.load aes heap_ok model_index key).ret = none ∧
        (self.load aes heap_ok model_index key).failure = some .NotBound ∧
        (self.load_key aes heap_ok key).ret = none ∧
        (self.load_key aes heap_ok key).failure = some .NotBound ∧
        (self.load_name aes heap_ok model_name key).ret = none ∧
        (self.load_name aes heap_ok model_name key).failure = some .NotBound := by
    intro self hb
    refine ⟨by simp [FbsLoader.get_model_num, hb],
      by simp [FbsLoader.list_models, hb, listed_names], ?_⟩
    intro i nm key
    unfold FbsLoader.load_key FbsLoader.load_name
    rw [load_unbound aes heap_ok self i key hb, load_unbound aes heap_ok self 0 key hb]
    exact ⟨rfl, rfl, rfl, rfl, rfl, rfl⟩
  rcases h with h | ⟨hloc, nm, hname, hfind⟩
  · subst h
    exact ⟨⟨none, location, none⟩, rfl, rfl, key_fact _ rfl⟩
  · subst hloc hname
    refine ⟨⟨none, .MODEL_LOCATION_IN_FLASH_PARTITION, none⟩, ?_, rfl, key_fact _ rfl⟩
    simp [FbsLoader.new, hfind]

/-- C10, at a partition name that the partition table does not hold. -/
theorem unbound_loader_inert_witness :
    no_partitions.esp_partition_find_first model_label = none ∧
    ∃ self : FbsLoader,
      (FbsLoader.new no_partitions (some model_label) .MODEL_LOCATION_IN_FLASH_PARTITION).loader
        = some self ∧
      self.m_fbs_buf = none ∧
      self.get_model_num = 0 ∧
      listed_names self.list_models = [] ∧
      ∀ (model_index : Int) (model_name : Option Buffer) (key : Option Key),
        (self.load toy_cipher toy_heap model_index key).ret = none ∧
        (self.load toy_cipher toy_heap model_index key).failure = some .NotBound ∧
        (self.load_key toy_cipher toy_heap key).ret = none ∧
        (self.load_key toy_cipher toy_heap key).failure = some .NotBound ∧
        (self.load_name toy_cipher toy_heap model_name key).ret = none ∧
        (self.load_name toy_cipher toy_heap model_name key).failure = some .NotBound :=
  ⟨rfl, unbound_loader_inert toy_cipher toy_heap no_partitions (some model_label)
    .MODEL_LOCATION_IN_FLASH_PARTITION (Or.inr ⟨rfl, model_label, rfl, rfl⟩)⟩

theorem load_single (aes : Key → Block → Block) (heap_ok : Nat → Bool)
    (self : FbsLoader) (buf : Buffer) (i : Int)
    (key : Option Key) (hbound : self.m_fbs_buf = some buf)
    (hfmt : get_model_format buf = .FBS_FILE_FORMAT_EDL1) :
    self.load aes heap_ok i key =
      ⟨(create_fbs_model aes heap_ok buf (some 0) key).ret,
        (if i > 0 then [Event.logw .ignore_index] else []) ++
          (create_fbs_model aes heap_ok buf (some 0) key).trace⟩ := by
  unfold FbsLoader.load
  rw [hbound]
  simp only [hfmt, Nat.zero_add]

theorem load_unknown (aes : Key → Block → Block) (heap_ok : Nat → Bool)
    (self : FbsLoader) (buf : Buffer) (i : Int)
    (key : Option Key) (hbound : self.m_fbs_buf = some buf)
    (hfmt : get_model_format buf = .FBS_FILE_FORMAT_UNK) :
    self.load aes heap_ok i key = ⟨none, [.loge .unsupported_format]⟩ := by
  unfold FbsLoader.load
  rw [hbound]
  simp only [hfmt]

theorem failure_logw_cons (d : Diag) (r : Option FbsModel) (t : List Event) :
    (Outcome.mk r (Event.logw d :: t)).failure = (Outcome.mk r t).failure := by
  cases r <;> simp [Outcome.failure]

theorem create_fbs_model_cases (aes : Key → Block → Block) (heap_ok : Nat → Bool) (src : Buffer)
    (p : Nat) (key : Option Key) :
    create_fbs_model aes heap_ok src (some p) key = ⟨none, [.loge .need_key]⟩ ∨
    create_fbs_model aes heap_ok src (some p) key = ⟨none, [.loge .corrupted]⟩ ∨
    (∃ n, create_fbs_model aes heap_ok src (some p) key
      = ⟨none, [.heap_malloc n, .aes_crypt_ctr n, .null_access]⟩) ∨
    ∃ m t, create_fbs_model aes heap_ok src (some p) key = ⟨some m, t⟩ := by
  unfold create_fbs_model
  simp only
  split_ifs
  · exact Or.inl rfl
  · exact Or.inr (Or.inr (Or.inr ⟨_, _, rfl⟩))
  · exact Or.inr (Or.inr (Or.inr ⟨_, _, rfl⟩))
  · exact Or.inr (Or.inr (Or.inl ⟨_, rfl⟩))
  · exact Or.inr (Or.inl rfl)

/-! ## Unknown tags -/

/-- C11. For a loader bound to a buffer whose first four bytes are neither "EDL1" nor "PDL1",
`load(index, key)` returns no handle and reports the unsupported format, for every
index and every key; the only event is that log line, and the outcome is the same
for every buffer with the same first four bytes: no payload sub-header is read. -/
theorem load_unknown_tag (aes : Key → Block → Block) (heap_ok : Nat → Bool)
    (self : FbsLoader) (buf : Buffer)
    (model_index : Int) (key : Option Key) (hbound : self.m_fbs_buf = some buf)
    (hE : read_bytes buf 0 4 ≠ [69, 68, 76, 49]) (hP : read_bytes buf 0 4 ≠ [80, 68, 76, 49]) :
    self.load aes heap_ok model_index key = ⟨none, [.loge .unsupported_format]⟩ ∧
    (self.load aes heap_ok model_index key).ret = none ∧
    (self.load aes heap_ok model_index key).failure = some .UnsupportedFormat ∧
    (∀ other : Buffer, (∀ a, a < 4 → other a = buf a) →
      (FbsLoader.mk self.m_mmap_handle self.m_location (some other)).load aes heap_ok model_index key
        = self.load aes heap_ok model_index key) := by
  have hfmt : get_model_format buf = .FBS_FILE_FORMAT_UNK := by
    rw [get_model_format_eq, if_neg hE, if_neg hP]
  have h := load_unknown aes heap_ok self buf model_index key hbound hfmt
  refine ⟨h, by rw [h], by rw [h]; rfl, ?_⟩
  intro other hagree
  have hfmt2 : get_model_format other = .FBS_FILE_FORMAT_UNK := by
    rw [get_model_format_eq, read_bytes_congr other buf 0 4 (fun a _ ha => hagree a (by omega)),
      if_neg hE, if_neg hP]
  rw [h, load_unknown aes heap_ok _ other model_index key rfl hfmt2]

/-- C11, at a buffer that starts with "XDL1". -/
theorem load_unknown_tag_witness :
    (bound_to unknown_tag).m_fbs_buf = some unknown_tag ∧
    read_bytes unknown_tag 0 4 ≠ [69, 68, 76, 49] ∧
    read_bytes unknown_tag 0 4 ≠ [80, 68, 76, 49] ∧
    (bound_to unknown_tag).load toy_cipher toy_heap 0 none = ⟨none, [.loge .unsupported_format]⟩ :=
  ⟨rfl, by decide, by decide,
    (load_unknown_tag toy_cipher toy_heap (bound_to unknown_tag) unknown_tag 0 none rfl (by decide)
      (by decide)).1⟩

/-! ## Single-model containers: the index is ignored -/

/-- C12. For a loader bound to a single-model container (tag "EDL1"), every key and every
`int` index: `load(index, key)` returns what `load(0, key)` returns, the extraction
at payload offset 0, with the same failure if any; the only difference is the
warning logged for a positive index, and the failure is never the index range. -/
theorem load_single_any_index (aes : Key → Block → Block) (heap_ok : Nat → Bool)
    (self : FbsLoader) (buf : Buffer)
    (model_index : Int) (key : Option Key) (hbound : self.m_fbs_buf = some buf)
    (hmagic : read_bytes buf 0 4 = [69, 68, 76, 49]) :
    (self.load aes heap_ok model_index key).ret = (self.load aes heap_ok 0 key).ret ∧
    (self.load aes heap_ok model_index key).ret = (create_fbs_model aes heap_ok buf (some 0) key).ret ∧
    (self.load aes heap_ok model_index key).failure = (self.load aes heap_ok 0 key).failure ∧
    (self.load aes heap_ok model_index key).trace =
      (if model_index > 0 then [Event.logw .ignore_index] else []) ++ (self.load aes heap_ok 0 key).trace ∧
    (self.load aes heap_ok model_index key).failure ≠ some .IndexOutOfRange := by
  have hfmt : get_model_format buf = .FBS_FILE_FORMAT_EDL1 := by
    rw [get_model_format_eq, if_pos hmagic]
  have h0 := load_single aes heap_ok self buf 0 key hbound hfmt
  have hi := load_single aes heap_ok self buf model_index key hbound hfmt
  simp only [gt_iff_lt, lt_self_iff_false, if_false, List.nil_append] at h0
  rw [hi, h0]
  refine ⟨rfl, rfl, ?_, rfl, ?_⟩
  · split_ifs
    · exact failure_logw_cons _ _ _
    · rfl
  · rcases create_fbs_model_cases aes heap_ok buf 0 key with h | h | ⟨n, h⟩ | ⟨m, t, h⟩ <;> rw [h] <;>
      split_ifs <;> simp [Outcome.failure, Diag.kind]

/-- C12, at index 5 of a single-model container. -/
theorem load_single_any_index_witness :
    (bound_to single_plain).m_fbs_buf = some single_plain ∧
    read_bytes single_plain 0 4 = [69, 68, 76, 49] ∧
    ((bound_to single_plain).load toy_cipher toy_heap 5 none).ret
      = ((bound_to single_plain).load toy_cipher toy_heap 0 none).ret :=
  ⟨rfl, by decide,
    (load_single_any_index toy_cipher toy_heap (bound_to single_plain) single_plain 5 none rfl
      (by decide)).1⟩

/-! ## Convenience overloads -/

/-- C13. For every loader state, every key and every model name, `load(key)` and
`load(model_name, key)` are `load(0, key)`; the result of `load(model_name, key)` is
the same for any two names. -/
theorem load_overloads_use_index_zero (aes : Key → Block → Block) (heap_ok : Nat → Bool)
    (self : FbsLoader)
    (model_name other_name : Option Buffer) (key : Option Key) :
    self.load_key aes heap_ok key = self.load aes heap_ok 0 key ∧
    self.load_name aes heap_ok model_name key = self.load aes heap_ok 0 key ∧
    self.load_name aes heap_ok model_name key = self.load_name aes heap_ok other_name key :=
  ⟨rfl, rfl, rfl⟩

theorem create_fbs_model_trace (aes : Key → Block → Block) (heap_ok : Nat → Bool)
    (src : Buffer) (p : Option Nat)
    (key : Option Key) :
    mappings_acquired (create_fbs_model aes heap_ok src p key).trace = 0 ∧
    mappings_released (create_fbs_model aes heap_ok src p key).trace = 0 := by
  cases p with
  | none => exact ⟨rfl, rfl⟩
  | some p =>
    unfold create_fbs_model
    simp only
    split_ifs <;> exact ⟨rfl, rfl⟩

theorem load_trace (aes : Key → Block → Block) (heap_ok : Nat → Bool)
    (self : FbsLoader) (i : Int) (key : Option Key) :
    mappings_acquired (self.load aes heap_ok i key).trace = 0 ∧
    mappings_released (self.load aes heap_ok i key).trace = 0 := by
  unfold FbsLoader.load
  cases self.m_fbs_buf with
  | none => exact ⟨rfl, rfl⟩
  | some buf =>
    simp only
    cases get_model_format buf with
    | FBS_FILE_FORMAT_UNK => exact ⟨rfl, rfl⟩
    | FBS_FILE_FORMAT_EDL1 =>
      have h := create_fbs_model_trace aes heap_ok buf (some (0 + 0)) key
      simp only [mappings_acquired, mappings_released, List.countP_append] at h ⊢
      split_ifs <;> simp [h.1, h.2]
    | FBS_FILE_FORMAT_PDL1 =>
      simp only
      have h := create_fbs_model_trace aes heap_ok buf
        (some (0 + (get_model_offset_by_index buf (to_u32 i) 0).offset)) key
      unfold get_model_offset_by_index at h ⊢
      simp only [mappings_acquired, mappings_released, List.countP_append] at h ⊢
      split_ifs <;> simp_all

theorem list_models_trace (self : FbsLoader) :
    mappings_acquired self.list_models = 0 ∧ mappings_released self.list_models = 0 := by
  unfold FbsLoader.list_models
  cases self.m_fbs_buf with
  | none => exact ⟨rfl, rfl⟩
  | some buf =>
    simp only
    cases get_model_format buf with
    | FBS_FILE_FORMAT_UNK => exact ⟨rfl, rfl⟩
    | FBS_FILE_FORMAT_EDL1 => exact ⟨rfl, rfl⟩
    | FBS_FILE_FORMAT_PDL1 =>
      simp [mappings_acquired, mappings_released, List.countP_eq_zero]

/-! ## Enumeration -/

theorem new_loader_cases (plat : Platform) (name : Option Buffer)
    (location : model_location_type_t) (self : FbsLoader)
    (h : (FbsLoader.new plat name location).loader = some self) :
    (self.m_mmap_handle = none ∧ self.m_location = location ∧
      mappings_acquired (FbsLoader.new plat name location).trace = 0) ∨
    (self.m_mmap_handle = some () ∧ self.m_location = location ∧
      location = .MODEL_LOCATION_IN_FLASH_PARTITION ∧
      mappings_acquired (FbsLoader.new plat name location).trace = 1) := by
  unfold FbsLoader.new at h ⊢
  cases name with
  | none =>
    simp only [Option.some.injEq] at h
    subst h
    exact Or.inl ⟨rfl, rfl, rfl⟩
  | some nm =>
    cases location with
    | MODEL_LOCATION_IN_FLASH_RODATA =>
      simp only [Option.some.injEq] at h
      subst h
      exact Or.inl ⟨rfl, rfl, rfl⟩
    | MODEL_LOCATION_IN_SDCARD =>
      simp only [Option.some.injEq] at h
      subst h
      exact Or.inl ⟨rfl, rfl, rfl⟩
    | MODEL_LOCATION_IN_FLASH_PARTITION =>
      simp only at h ⊢
      cases hf : plat.esp_partition_find_first nm with
      | none =>
        rw [hf] at h
        simp only [Option.some.injEq] at h
        subst h
        exact Or.inl ⟨rfl, rfl, rfl⟩
      | some part =>
        rw [hf] at h
        simp only at h ⊢
        cases hm : part.mapped with
        | none => rw [hm] at h; simp at h
        | some region =>
          rw [hm] at h
          simp only [Option.some.injEq] at h
          subst h
          refine Or.inr ⟨rfl, rfl, by trivial, ?_⟩
          simp only [mappings_acquired, List.countP_append]
          split_ifs <;> simp

/-! ## Destruction -/

/-- C15. The mapping counters over a loader's life: construction, any `load` and
`list_models` calls, destruction.  A loader that bound a mapped partition acquires
one mapping and its destructor releases one.  A loader that holds no mapping (null
name, partition not found, compiled-in or external source) acquires none and
releases none.  In every case the mappings acquired and released are equal in
number, and `load` and `list_models` neither acquire nor release.  (The destructor
of a mapped-partition loader without a mapping makes no call at all: it faults at
the read through the null handle pointer.) -/
theorem destroy_release_count (plat : Platform) (name : Option Buffer)
    (location : model_location_type_t) (self : FbsLoader)
    (h : (FbsLoader.new plat name location).loader = some self) :
    (self.m_mmap_handle ≠ none →
      mappings_acquired (FbsLoader.new plat name location).trace = 1 ∧
      self.destroy = [.munmap (some ()), .handle_free] ∧
      mappings_released self.destroy = 1) ∧
    (self.m_mmap_handle = none →
      mappings_acquired (FbsLoader.new plat name location).trace = 0 ∧
      mappings_released self.destroy = 0) ∧
    (location ≠ .MODEL_LOCATION_IN_FLASH_PARTITION →
      self.m_mmap_handle = none ∧ self.destroy = []) ∧
    (location = .MODEL_LOCATION_IN_FLASH_PARTITION → self.m_mmap_handle = none →
      self.destroy = [.null_access]) ∧
    mappings_acquired (FbsLoader.new plat name location).trace = mappings_released self.destroy ∧
    (∀ (aes : Key → Block → Block) (heap_ok : Nat → Bool) (model_index : Int) (key : Option Key),
      mappings_acquired (self.load aes heap_ok model_index key).trace = 0 ∧
      mappings_released (self.load aes heap_ok model_index key).trace = 0 ∧
      mappings_acquired self.list_models = 0 ∧
      mappings_released self.list_models = 0) := by
  have hq : ∀ (aes : Key → Block → Block) (heap_ok : Nat → Bool) (model_index : Int)
      (key : Option Key),
      mappings_acquired (self.load aes heap_ok model_index key).trace = 0 ∧
      mappings_released (self.load aes heap_ok model_index key).trace = 0 ∧
      mappings_acquired self.list_models = 0 ∧
      mappings_released self.list_models = 0 := fun aes heap_ok i key =>
    ⟨(load_trace aes heap_ok self i key).1, (load_trace aes heap_ok self i key).2,
      (list_models_trace self).1, (list_models_trace self).2⟩
  rcases new_loader_cases plat name location self h with ⟨h1, h2, h3⟩ | ⟨h1, h2, h3, h4⟩
  · have hd : mappings_released self.destroy = 0 := by
      unfold FbsLoader.destroy
      rw [h1]
      cases self.m_location <;> rfl
    refine ⟨fun hh => absurd h1 hh, fun _ => ⟨h3, hd⟩, fun hloc => ⟨h1, ?_⟩, fun hloc _ => ?_,
      by rw [h3, hd], hq⟩
    · unfold FbsLoader.destroy
      rw [h2]
      cases location with
      | MODEL_LOCATION_IN_FLASH_RODATA => rfl
      | MODEL_LOCATION_IN_FLASH_PARTITION => exact absurd rfl hloc
      | MODEL_LOCATION_IN_SDCARD => rfl
    · unfold FbsLoader.destroy
      rw [h2, hloc, h1]
  · have hd : self.destroy = [.munmap (some ()), .handle_free] := by
      unfold FbsLoader.destroy
      rw [h2, h3, h1]
    refine ⟨fun _ => ⟨h4, hd, by rw [hd]; rfl⟩, fun hn => ?_, fun hloc => absurd h3 hloc,
      fun _ hn => ?_, by rw [h4, hd]; rfl, hq⟩
    · rw [hn] at h1; cases h1
    · rw [hn] at h1; cases h1

/-- C15, at the partition name "model": with a partition that maps, one mapping is
acquired and one released; with an empty partition table none is acquired and none
released. -/
theorem destroy_release_count_witness :
    (FbsLoader.new one_partition (some model_label) .MODEL_LOCATION_IN_FLASH_PARTITION).loader
      = some ⟨some (), .MODEL_LOCATION_IN_FLASH_PARTITION, some single_plain⟩ ∧
    mappings_acquired
      (FbsLoader.new one_partition (some model_label) .MODEL_LOCATION_IN_FLASH_PARTITION).trace = 1 ∧
    (FbsLoader.mk (some ()) .MODEL_LOCATION_IN_FLASH_PARTITION (some single_plain)).destroy
      = [.munmap (some ()), .handle_free] ∧
    mappings_released
      (FbsLoader.mk (some ()) .MODEL_LOCATION_IN_FLASH_PARTITION (some single_plain)).destroy = 1 ∧
    (FbsLoader.new no_partitions (some model_label) .MODEL_LOCATION_IN_FLASH_PARTITION).loader
      = some ⟨none, .MODEL_LOCATION_IN_FLASH_PARTITION, none⟩ ∧
    mappings_acquired
      (FbsLoader.new no_partitions (some model_label) .MODEL_LOCATION_IN_FLASH_PARTITION).trace = 0 ∧
    mappings_released (FbsLoader.mk none .MODEL_LOCATION_IN_FLASH_PARTITION none).destroy = 0 :=
  have mapped := (destroy_release_count one_partition (some model_label)
    .MODEL_LOCATION_IN_FLASH_PARTITION
    ⟨some (), .MODEL_LOCATION_IN_FLASH_PARTITION, some single_plain⟩ rfl).1 (by simp)
  have unmapped := (destroy_release_count no_partitions (some model_label)
    .MODEL_LOCATION_IN_FLASH_PARTITION ⟨none, .MODEL_LOCATION_IN_FLASH_PARTITION, none⟩ rfl).2.1
    rfl
  ⟨rfl, mapped.1, mapped.2.1, mapped.2.2, rfl, unmapped.1, unmapped.2⟩

/-! ## Buffers of known extent -/

/-- C16, counterexample. Two memories hold the same 3-byte buffer "EDL" and differ in the
byte after it: `get_model_format` returns `FBS_FILE_FORMAT_EDL1` for one and
`FBS_FILE_FORMAT_UNK` for the other, so on a buffer shorter than 4 bytes it reads
past the end and does not always return Unknown. -/
theorem get_model_format_short_buffer :
    (∀ a, a < 3 → edl_then_one a = edl_then_nul a) ∧
    get_model_format edl_then_one = .FBS_FILE_FORMAT_EDL1 ∧
    get_model_format edl_then_nul = .FBS_FILE_FORMAT_UNK := by
  decide

/-- C16, amended. `get_model_format` takes no extent and always reads the four bytes at
offsets 0 to 3: its result is determined by them, and it is `FBS_FILE_FORMAT_EDL1`
exactly when they are "EDL1", `FBS_FILE_FORMAT_PDL1` exactly when they are "PDL1",
and Unknown exactly when they are neither.  For every extent `L < 4` there are two
memories that agree below `L` and get different results, one of them
`FBS_FILE_FORMAT_EDL1`: on a buffer shorter than 4 bytes the result depends on the
bytes that follow it. -/
theorem get_model_format_ignores_extent :
    (∀ buf other : Buffer, (∀ a, a < 4 → other a = buf a) →
      get_model_format other = get_model_format buf) ∧
    (∀ buf : Buffer,
      (get_model_format buf = .FBS_FILE_FORMAT_UNK ↔
        (read_bytes buf 0 4 ≠ [69, 68, 76, 49] ∧ read_bytes buf 0 4 ≠ [80, 68, 76, 49])) ∧
      (get_model_format buf = .FBS_FILE_FORMAT_EDL1 ↔ read_bytes buf 0 4 = [69, 68, 76, 49]) ∧
      (get_model_format buf = .FBS_FILE_FORMAT_PDL1 ↔ read_bytes buf 0 4 = [80, 68, 76, 49])) ∧
    (∀ L, L < 4 → ∃ b1 b2 : Buffer, (∀ a, a < L → b1 a = b2 a) ∧
      get_model_format b1 = .FBS_FILE_FORMAT_EDL1 ∧
      get_model_format b2 = .FBS_FILE_FORMAT_UNK) := by
  refine ⟨?_, ?_, ?_⟩
  · intro buf other h
    rw [get_model_format_eq, get_model_format_eq,
      read_bytes_congr other buf 0 4 (fun a _ ha => h a (by omega))]
  · intro buf
    refine ⟨?_, ?_, ?_⟩
    · rw [get_model_format_eq]; split_ifs with h1 h2 <;> simp_all
    · rw [get_model_format_eq]; split_ifs with h1 h2 <;> simp_all
    · rw [get_model_format_eq]; split_ifs with h1 h2 <;> simp_all
  · intro L hL
    refine ⟨edl_then_one, edl_then_nul, ?_, by decide, by decide⟩
    intro a ha
    have h3 : a < 3 := by omega
    have : ∀ a, a < 3 → edl_then_one a = edl_then_nul a := by decide
    exact this a h3

/-- C16 amended, at the 3-byte buffer "EDL": it is Unknown when a zero byte follows it, by
the four bytes read, and there are two memories that agree on its three bytes and
get different results. -/
theorem get_model_format_ignores_extent_witness :
    read_bytes edl_then_nul 0 4 = [69, 68, 76, 0] ∧
    get_model_format edl_then_nul = .FBS_FILE_FORMAT_UNK ∧
    ∃ b1 b2 : Buffer, (∀ a, a < 3 → b1 a = b2 a) ∧
      get_model_format b1 = .FBS_FILE_FORMAT_EDL1 ∧
      get_model_format b2 = .FBS_FILE_FORMAT_UNK :=
  ⟨by decide,
    ((get_model_format_ignores_extent.2.1 edl_then_nul).1).mpr ⟨by decide, by decide⟩,
    get_model_format_ignores_extent.2.2 3 (by decide)⟩

/-- C17, counterexample. The 8-byte buffer "PDL1" with count 1 ends before its entry table.
`load(0)` reads the table past the end: in one memory it returns a handle, in
another, equal on the first 8 bytes, it reports the missing key; in neither does
it report the unsupported format. -/
theorem load_reads_past_extent :
    (∀ a, a < 8 → one_entry a = header_only a) ∧
    (bound_to one_entry).load toy_cipher toy_heap 0 none = ⟨some ⟨.source 32, false⟩, []⟩ ∧
    ((bound_to header_only).load toy_cipher toy_heap 0 none).failure = some .MissingKey := by
  decide

theorem get_model_offset_by_index_ok (buf : Buffer) (index offset : Nat)
    (h : index < read_u32 buf 4) :
    get_model_offset_by_index buf index offset
      = ⟨.ESP_OK, read_u32 buf (4 * ((2 + index * 3) % 4294967296)), []⟩ := by
  unfold get_model_offset_by_index
  rw [if_neg (by omega)]

theorem get_model_offset_by_index_fail (buf : Buffer) (index offset : Nat)
    (h : read_u32 buf 4 ≤ index) :
    get_model_offset_by_index buf index offset = ⟨.ESP_FAIL, offset, [.loge .index_out_of_range]⟩ := by
  unfold get_model_offset_by_index
  rw [if_pos h]

theorem create_fbs_model_unsupported_iff (aes : Key → Block → Block) (heap_ok : Nat → Bool)
    (src : Buffer) (p : Nat)
    (key : Option Key) :
    (create_fbs_model aes heap_ok src (some p) key).failure = some .UnsupportedFormat ↔
      (key ≠ none ∧ payload_mode src p ≠ 0 ∧ payload_mode src p ≠ 1) := by
  unfold payload_mode
  by_cases h0 : read_u32 src (p + 4) = 0
  · rw [create_fbs_model_plain aes heap_ok src p key h0]
    simp [Outcome.failure, h0]
  · by_cases h1 : read_u32 src (p + 4) = 1
    · cases key with
      | none => simp [create_fbs_model, h1, Outcome.failure, Diag.kind]
      | some k =>
        by_cases ha : heap_ok (read_u32 src (p + 8)) = true
        · simp [create_fbs_model, h1, ha, Outcome.failure]
        · simp [create_fbs_model, h1, ha, Outcome.failure]
    · cases key with
      | none => simp [create_fbs_model, h0, Outcome.failure, Diag.kind]
      | some k => simp [create_fbs_model, h0, h1, Outcome.failure, Diag.kind]

/-- C17, amended. No extent reaches `load`, `get_model_num` or `list_models`, and none of
them checks a bound.  For a bound loader, `load` reports the unsupported format
exactly when the tag is unknown, or a key is supplied and the cipher mode word read
at the resolved payload offset is neither 0 nor 1; `get_model_num` is determined by
the first 8 bytes; `list_models` logs no error line. -/
theorem load_unsupported_format_iff (aes : Key → Block → Block) (heap_ok : Nat → Bool)
    (self : FbsLoader) (buf : Buffer)
    (model_index : Int) (key : Option Key) (hbound : self.m_fbs_buf = some buf) :
    ((self.load aes heap_ok model_index key).failure = some .UnsupportedFormat ↔
      (get_model_format buf = .FBS_FILE_FORMAT_UNK ∨
        (get_model_format buf = .FBS_FILE_FORMAT_EDL1 ∧ key ≠ none ∧
          payload_mode buf 0 ≠ 0 ∧ payload_mode buf 0 ≠ 1) ∨
        (get_model_format buf = .FBS_FILE_FORMAT_PDL1 ∧ to_u32 model_index < read_u32 buf 4 ∧
          key ≠ none ∧
          payload_mode buf (get_model_offset_by_index buf (to_u32 model_index) 0).offset ≠ 0 ∧
          payload_mode buf (get_model_offset_by_index buf (to_u32 model_index) 0).offset ≠ 1))) ∧
    (∀ other : Buffer, (∀ a, a < 8 → other a = buf a) →
      (FbsLoader.mk self.m_mmap_handle self.m_location (some other)).get_model_num
        = self.get_model_num) ∧
    (∀ d, Event.loge d ∉ self.list_models) := by
  refine ⟨?_, ?_, ?_⟩
  · cases hfmt : get_model_format buf with
    | FBS_FILE_FORMAT_UNK =>
      rw [load_unknown aes heap_ok self buf model_index key hbound hfmt]
      simp [Outcome.failure, Diag.kind]
    | FBS_FILE_FORMAT_EDL1 =>
      rw [load_single aes heap_ok self buf model_index key hbound hfmt]
      have h := create_fbs_model_unsupported_iff aes heap_ok buf 0 key
      have e : (Outcome.mk (create_fbs_model aes heap_ok buf (some 0) key).ret
          ((if model_index > 0 then [Event.logw .ignore_index] else []) ++
            (create_fbs_model aes heap_ok buf (some 0) key).trace)).failure
          = (create_fbs_model aes heap_ok buf (some 0) key).failure := by
        split_ifs
        · exact failure_logw_cons _ _ _
        · rfl
      rw [e, h]
      simp
    | FBS_FILE_FORMAT_PDL1 =>
      rw [load_packed aes heap_ok self buf model_index key hbound hfmt]
      by_cases hi : to_u32 model_index < read_u32 buf 4
      · have hok : (get_model_offset_by_index buf (to_u32 model_index) 0).err = .ESP_OK := by
          rw [get_model_offset_by_index_ok buf _ 0 hi]
        have ht : (get_model_offset_by_index buf (to_u32 model_index) 0).trace = [] := by
          rw [get_model_offset_by_index_ok buf _ 0 hi]
        simp only [hok, ne_eq, not_true_eq_false, if_false, ht, List.nil_append]
        have h := create_fbs_model_unsupported_iff aes heap_ok buf
          (get_model_offset_by_index buf (to_u32 model_index) 0).offset key
        simp only [hi, true_and]
        rw [← h]
        simp
      · rw [get_model_offset_by_index_fail buf _ 0 (Nat.not_lt.mp hi)]
        simp [Outcome.failure, Diag.kind, hi]
  · intro other hagree
    have hf : get_model_format other = get_model_format buf := by
      rw [get_model_format_eq, get_model_format_eq,
        read_bytes_congr other buf 0 4 (fun a _ ha => hagree a (by omega))]
    have hc : read_u32 other 4 = read_u32 buf 4 :=
      read_u32_congr other buf 4 (fun a _ ha => hagree a (by omega))
    unfold FbsLoader.get_model_num
    simp only [hbound, hf, hc]
  · intro d
    unfold FbsLoader.list_models
    rw [hbound]
    cases hf : get_model_format buf <;> simp [hf]

/-- C17 amended, at a single-model container with cipher mode 2 and a key: the
unsupported format is reported for the cipher mode. -/
theorem load_unsupported_format_iff_witness :
    (bound_to single_mode2).m_fbs_buf = some single_mode2 ∧
    get_model_format single_mode2 = .FBS_FILE_FORMAT_EDL1 ∧
    payload_mode single_mode2 0 = 2 ∧
    ((bound_to single_mode2).load toy_cipher toy_heap 0 (some (List.range 16))).failure
      = some .UnsupportedFormat :=
  ⟨rfl, by decide, by decide,
    (load_unsupported_format_iff toy_cipher toy_heap (bound_to single_mode2) single_mode2 0
      (some (List.range 16)) rfl).1.mpr
      (Or.inr (Or.inl ⟨by decide, by simp, by decide, by decide⟩))⟩

/-! ## Payload layout in packed containers -/

/-- C18, counterexample. The entry of `one_entry` has payload offset 20.  The word at byte
offset 20 is the tag "EDL1" (827081797), the word at 24 is 0, and `load(0)` returns a
borrowed handle at byte offset 32: the cipher mode is read at `p + 4` and the data
starts at `p + 12`, not at `p` and `p + 8`. -/
theorem packed_payload_keeps_tag_slot :
    read_bytes one_entry 0 4 = [80, 68, 76, 49] ∧
    entry_payload_offset one_entry 0 = 20 ∧
    read_u32 one_entry 20 = 827081797 ∧
    read_u32 one_entry (20 + 4) = 0 ∧
    (bound_to one_entry).load toy_cipher toy_heap 0 (some (List.range 16))
      = ⟨some ⟨.source (20 + 12), false⟩, []⟩ := by
  decide

theorem create_fbs_model_congr (aes : Key → Block → Block) (heap_ok : Nat → Bool)
    (src other : Buffer) (p : Nat)
    (key : Option Key) (h : ∀ a, p + 4 ≤ a → other a = src a) :
    create_fbs_model aes heap_ok other (some p) key = create_fbs_model aes heap_ok src (some p) key := by
  have hm : read_u32 other (p + 4) = read_u32 src (p + 4) :=
    read_u32_congr other src (p + 4) (fun a ha _ => h a ha)
  have hs : read_u32 other (p + 8) = read_u32 src (p + 8) :=
    read_u32_congr other src (p + 8) (fun a ha _ => h a (by omega))
  have hb : ∀ n, read_bytes other (p + 12) n = read_bytes src (p + 12) n :=
    fun n => read_bytes_congr other src (p + 12) n (fun a ha _ => h a (by omega))
  unfold create_fbs_model
  simp only [hm, hs, hb]

/-- C18, amended. For the `i`-th entry of a packed container, with payload offset `p` (and
`3 * i + 2 < 2^32`), `load(i, key)` is the extraction at `p`: the cipher mode is the
word at `p + 4`, the payload size the word at `p + 8`, the model data starts at
`p + 12` (for cipher mode 1 the handle is over the decrypted copy, when its block is
allocated), and the four bytes at `p` are not inspected (the outcome is the same
for every memory that agrees from `p + 4` on). -/
theorem load_packed_payload_layout (aes : Key → Block → Block) (heap_ok : Nat → Bool)
    (self : FbsLoader) (buf : Buffer)
    (i : Nat) (key : Option Key) (hbound : self.m_fbs_buf = some buf)
    (hmagic : read_bytes buf 0 4 = [80, 68, 76, 49]) (hi : i < read_u32 buf 4)
    (hfit : 3 * i + 2 < 4294967296) :
    self.load aes heap_ok (i : Int) key
      = create_fbs_model aes heap_ok buf (some (entry_payload_offset buf i)) key ∧
    (read_u32 buf (entry_payload_offset buf i + 4) = 0 →
      self.load aes heap_ok (i : Int) key
        = ⟨some ⟨.source (entry_payload_offset buf i + 12), false⟩, []⟩) ∧
    (∀ k, key = some k → read_u32 buf (entry_payload_offset buf i + 4) = 1 →
      heap_ok (read_u32 buf (entry_payload_offset buf i + 8)) = true →
      self.load aes heap_ok (i : Int) key
        = ⟨some ⟨.heap (fbs_aes_crypt_ctr aes
              (read_bytes buf (entry_payload_offset buf i + 12)
                (read_u32 buf (entry_payload_offset buf i + 8))) k), true⟩,
            [.heap_malloc (read_u32 buf (entry_payload_offset buf i + 8)),
              .aes_crypt_ctr (read_u32 buf (entry_payload_offset buf i + 8))]⟩) ∧
    (∀ other : Buffer, (∀ a, entry_payload_offset buf i + 4 ≤ a → other a = buf a) →
      create_fbs_model aes heap_ok other (some (entry_payload_offset buf i)) key
        = create_fbs_model aes heap_ok buf (some (entry_payload_offset buf i)) key) := by
  have hfmt : get_model_format buf = .FBS_FILE_FORMAT_PDL1 := by
    rw [get_model_format_eq, if_neg (by rw [hmagic]; decide), if_pos hmagic]
  have hlt := read_u32_lt buf 4
  have hu : to_u32 (i : Int) = i := to_u32_natCast i (by omega)
  have hoff : get_model_offset_by_index buf i 0 = ⟨.ESP_OK, entry_payload_offset buf i, []⟩ := by
    rw [get_model_offset_by_index_ok buf i 0 hi, Nat.mod_eq_of_lt (by omega)]
    unfold entry_payload_offset
    congr 2
    omega
  have hload : self.load aes heap_ok (i : Int) key
      = create_fbs_model aes heap_ok buf (some (entry_payload_offset buf i)) key := by
    rw [load_packed aes heap_ok self buf i key hbound hfmt, hu, hoff]
    simp
  refine ⟨hload, ?_, ?_, ?_⟩
  · intro h0
    rw [hload, create_fbs_model_plain aes heap_ok buf _ key h0]
  · intro k hk h1 ha
    subst hk
    rw [hload]
    simp [create_fbs_model, h1, ha]
  · intro other h
    exact create_fbs_model_congr aes heap_ok buf other _ key h

/-- C18 amended, at the entry of `one_entry`. -/
theorem load_packed_payload_layout_witness :
    read_bytes one_entry 0 4 = [80, 68, 76, 49] ∧ 0 < read_u32 one_entry 4 ∧
    (bound_to one_entry).load toy_cipher toy_heap ((0 : Nat) : Int) none
      = create_fbs_model toy_cipher toy_heap one_entry (some (entry_payload_offset one_entry 0)) none :=
  ⟨by decide, by decide,
    (load_packed_payload_layout toy_cipher toy_heap (bound_to one_entry) one_entry 0 none rfl (by decide)
      (by decide) (by decide)).1⟩

/-! ## Counter mode: the key stream -/

theorem xor_u8_xor (a b k : Nat) : xor_u8 a k ^^^ xor_u8 b k = (a % 256) ^^^ (b % 256) := by
  have ha : a % 256 < 2 ^ 8 := by omega
  have hb : b % 256 < 2 ^ 8 := by omega
  have hk : k % 256 < 2 ^ 8 := by omega
  have hxa : (a % 256) ^^^ (k % 256) < 256 := Nat.xor_lt_two_pow ha hk
  have hxb : (b % 256) ^^^ (k % 256) < 256 := Nat.xor_lt_two_pow hb hk
  unfold xor_u8
  rw [Nat.mod_eq_of_lt hxa, Nat.mod_eq_of_lt hxb, Nat.xor_assoc, Nat.xor_comm (b % 256),
    Nat.xor_cancel_left]

theorem mbedtls_aes_crypt_ctr_xor (ecb : Block → Block) (c1 : List Nat) :
    ∀ (c2 : List Nat) (n : Nat) (nc sb : Block),
      List.zipWith (fun a b => a ^^^ b) (mbedtls_aes_crypt_ctr ecb n nc sb c1)
          (mbedtls_aes_crypt_ctr ecb n nc sb c2)
        = List.zipWith (fun a b => (a % 256) ^^^ (b % 256)) c1 c2 := by
  induction c1 with
  | nil => intro c2 n nc sb; simp [mbedtls_aes_crypt_ctr]
  | cons a as ih =>
    intro c2 n nc sb
    cases c2 with
    | nil => simp [mbedtls_aes_crypt_ctr]
    | cons b bs =>
      simp only [mbedtls_aes_crypt_ctr, List.zipWith_cons_cons, xor_u8_xor, ih]

theorem mbedtls_aes_crypt_ctr_take (ecb : Block → Block) (c : List Nat) :
    ∀ (m n : Nat) (nc sb : Block),
      mbedtls_aes_crypt_ctr ecb n nc sb (c.take m) = (mbedtls_aes_crypt_ctr ecb n nc sb c).take m := by
  induction c with
  | nil => intro m n nc sb; simp [mbedtls_aes_crypt_ctr]
  | cons a as ih =>
    intro m n nc sb
    cases m with
    | zero => simp [mbedtls_aes_crypt_ctr]
    | succ m => simp only [List.take_succ_cons, mbedtls_aes_crypt_ctr, ih]

theorem zipWith_xor_of_bytes (c1 c2 : List Nat) (h1 : ∀ b ∈ c1, b < 256) (h2 : ∀ b ∈ c2, b < 256) :
    List.zipWith (fun a b => (a % 256) ^^^ (b % 256)) c1 c2
      = List.zipWith (fun a b => a ^^^ b) c1 c2 := by
  have e := List.zipWith_map (fun a b : Nat => a ^^^ b) (fun c => c % 256) (fun c => c % 256) c1 c2
  rw [map_mod_of_bytes c1 h1, map_mod_of_bytes c2 h2] at e
  exact e.symm

/-- C19. Every call of `fbs_aes_crypt_ctr` starts from the counter block `0x10 .. 0x1F`: its
output is the input xor the key stream, whose byte `j` is byte `j mod 16` of the
encryption under the key of that block incremented `j / 16` times, so the key
stream depends on the key and the byte position only.  Hence, for every two byte
strings of equal length, the outputs xor to the xor of the inputs, byte for byte,
and the output for a prefix of an input is the prefix, of the same length, of the
output for the input. -/
theorem fbs_aes_crypt_ctr_fixed_keystream (aes : Key → Block → Block) (key : Key)
    (c1 c2 : List Nat) (h1 : ∀ b ∈ c1, b < 256) (h2 : ∀ b ∈ c2, b < 256)
    (hlen : c1.length = c2.length) :
    counter_block 0 = [16, 17, 18, 19, 20, 21, 22, 23, 24, 25, 26, 27, 28, 29, 30, 31] ∧
    (∀ j, j < 16 → keystream_byte aes key j
      = (aes key [16, 17, 18, 19, 20, 21, 22, 23, 24, 25, 26, 27, 28, 29, 30, 31]).getD j 0) ∧
    fbs_aes_crypt_ctr aes c1 key = aes128_ctr_decrypt aes key c1 ∧
    (∀ j, j < c1.length →
      (fbs_aes_crypt_ctr aes c1 key).getD j 0 = xor_u8 (c1.getD j 0) (keystream_byte aes key j) ∧
      (fbs_aes_crypt_ctr aes c2 key).getD j 0 = xor_u8 (c2.getD j 0) (keystream_byte aes key j)) ∧
    List.zipWith (fun a b => a ^^^ b) (fbs_aes_crypt_ctr aes c1 key) (fbs_aes_crypt_ctr aes c2 key)
      = List.zipWith (fun a b => a ^^^ b) c1 c2 ∧
    (List.zipWith (fun a b => a ^^^ b) (fbs_aes_crypt_ctr aes c1 key)
      (fbs_aes_crypt_ctr aes c2 key)).length = c1.length ∧
    (∀ m, fbs_aes_crypt_ctr aes (c1.take m) key = (fbs_aes_crypt_ctr aes c1 key).take m) := by
  refine ⟨rfl, ?_, fbs_aes_crypt_ctr_refines aes key c1, ?_, ?_, ?_, ?_⟩
  · intro j hj
    unfold keystream_byte
    rw [Nat.div_eq_of_lt hj, Nat.mod_eq_of_lt hj]
    rfl
  · intro j hj
    rw [fbs_aes_crypt_ctr_refines, fbs_aes_crypt_ctr_refines]
    unfold aes128_ctr_decrypt
    rw [ctr_decrypt_from_getD aes key c1 0 j hj,
      ctr_decrypt_from_getD aes key c2 0 j (by rw [← hlen]; exact hj), Nat.zero_add]
    exact ⟨rfl, rfl⟩
  · unfold fbs_aes_crypt_ctr
    rw [mbedtls_aes_crypt_ctr_xor, zipWith_xor_of_bytes c1 c2 h1 h2]
  · unfold fbs_aes_crypt_ctr
    simp [mbedtls_aes_crypt_ctr_length, hlen]
  · intro m
    unfold fbs_aes_crypt_ctr
    rw [mbedtls_aes_crypt_ctr_take]

/-- C19, at two three-byte strings: the first output byte of each is the input byte xor
the first byte of the encrypted block `0x10 .. 0x1F`, which the example cipher makes
`0x10` plus the first key byte. -/
theorem fbs_aes_crypt_ctr_fixed_keystream_witness :
    (∀ b ∈ [1, 2, 3], b < 256) ∧ (∀ b ∈ [250, 0, 77], b < 256) ∧
    keystream_byte toy_cipher [5, 6, 7] 0 = 21 ∧
    (fbs_aes_crypt_ctr toy_cipher [1, 2, 3] [5, 6, 7]).getD 0 0
      = xor_u8 1 (keystream_byte toy_cipher [5, 6, 7] 0) ∧
    (fbs_aes_crypt_ctr toy_cipher [250, 0, 77] [5, 6, 7]).getD 0 0
      = xor_u8 250 (keystream_byte toy_cipher [5, 6, 7] 0) ∧
    List.zipWith (fun a b => a ^^^ b) (fbs_aes_crypt_ctr toy_cipher [1, 2, 3] [5, 6, 7])
        (fbs_aes_crypt_ctr toy_cipher [250, 0, 77] [5, 6, 7])
      = List.zipWith (fun a b => a ^^^ b) [1, 2, 3] [250, 0, 77] :=
  ⟨by decide, by decide, by decide,
    ((fbs_aes_crypt_ctr_fixed_keystream toy_cipher [5, 6, 7] [1, 2, 3] [250, 0, 77]
      (by decide) (by decide) rfl).2.2.2.1 0 (by decide)).1,
    ((fbs_aes_crypt_ctr_fixed_keystream toy_cipher [5, 6, 7] [1, 2, 3] [250, 0, 77]
      (by decide) (by decide) rfl).2.2.2.1 0 (by decide)).2,
    (fbs_aes_crypt_ctr_fixed_keystream toy_cipher [5, 6, 7] [1, 2, 3] [250, 0, 77]
      (by decide) (by decide) rfl).2.2.2.2.1⟩

/-! ## Negative indices -/

/-- C20, counterexample. With the count word `0xFFFFFFFF`, the index -2 converts to
4294967294, passes the range check and selects an entry: `load(-2)` returns a
handle. -/
theorem load_negative_index_selects :
    read_bytes far_entry 0 4 = [80, 68, 76, 49] ∧
    read_u32 far_entry 4 = 4294967295 ∧
    to_u32 (-2) = 4294967294 ∧
    (bound_to far_entry).load toy_cipher toy_heap (-2) none = ⟨some ⟨.source 20, false⟩, []⟩ := by
  decide

/-- C20, amended. For a loader bound to a packed container and a negative `int` index, the
converted index is `model_index + 2^32`.  `load` returns no handle and reports the
index out of range whenever `model_count <= model_index + 2^32`, in particular
whenever `model_count <= 2^31`; when `model_count > model_index + 2^32` the range check
passes and `load` is the extraction at the word the subscript selects. -/
theorem load_negative_index (aes : Key → Block → Block) (heap_ok : Nat → Bool)
    (self : FbsLoader) (buf : Buffer)
    (model_index : Int) (key : Option Key) (hbound : self.m_fbs_buf = some buf)
    (hmagic : read_bytes buf 0 4 = [80, 68, 76, 49]) (hneg : model_index < 0)
    (hmin : -2147483648 ≤ model_index) :
    (to_u32 model_index : Int) = model_index + 4294967296 ∧
    ((read_u32 buf 4 : Int) ≤ model_index + 4294967296 →
      (self.load aes heap_ok model_index key).ret = none ∧
      (self.load aes heap_ok model_index key).failure = some .IndexOutOfRange) ∧
    (read_u32 buf 4 ≤ 2147483648 →
      (self.load aes heap_ok model_index key).ret = none ∧
      (self.load aes heap_ok model_index key).failure = some .IndexOutOfRange) ∧
    (model_index + 4294967296 < (read_u32 buf 4 : Int) →
      (get_model_offset_by_index buf (to_u32 model_index) 0).err = .ESP_OK ∧
      self.load aes heap_ok model_index key
        = create_fbs_model aes heap_ok buf
            (some (read_u32 buf (4 * ((2 + to_u32 model_index * 3) % 4294967296)))) key) := by
  have hfmt : get_model_format buf = .FBS_FILE_FORMAT_PDL1 := by
    rw [get_model_format_eq, if_neg (by rw [hmagic]; decide), if_pos hmagic]
  have hu : (to_u32 model_index : Int) = model_index + 4294967296 := by
    unfold to_u32
    omega
  have hrej : (read_u32 buf 4 : Int) ≤ model_index + 4294967296 →
      (self.load aes heap_ok model_index key).ret = none ∧
      (self.load aes heap_ok model_index key).failure = some .IndexOutOfRange := by
    intro h
    have hle : read_u32 buf 4 ≤ to_u32 model_index := by omega
    rw [load_packed aes heap_ok self buf model_index key hbound hfmt,
      get_model_offset_by_index_fail buf _ 0 hle]
    exact ⟨rfl, rfl⟩
  refine ⟨hu, hrej, fun h => hrej (by omega), ?_⟩
  intro h
  have hlt : to_u32 model_index < read_u32 buf 4 := by omega
  rw [load_packed aes heap_ok self buf model_index key hbound hfmt,
    get_model_offset_by_index_ok buf _ 0 hlt]
  simp

/-- C20 amended, at index -1 of a container with two entries. -/
theorem load_negative_index_witness :
    read_bytes two_count 0 4 = [80, 68, 76, 49] ∧ (-1 : Int) < 0 ∧ read_u32 two_count 4 ≤ 2147483648 ∧
    ((bound_to two_count).load toy_cipher toy_heap (-1) none).ret = none ∧
    ((bound_to two_count).load toy_cipher toy_heap (-1) none).failure = some .IndexOutOfRange :=
  ⟨by decide, by decide, by decide,
    (load_negative_index toy_cipher toy_heap (bound_to two_count) two_count (-1) none rfl (by decide)
      (by decide) (by decide)).2.2.1 (by decide)⟩

end fbs
